import Mathlib

/-!
# Verification of the BC Code Intelligence interactive orchestration core

Shallow embedding of the orchestration engine of the
`bc-code-intelligence-vscode` extension, translated from the TypeScript
sources, together with proofs of the specification claims about it:

* `src/src/services/workflow-session.ts` — the workflow session state machine
  (`WorkflowSessionManager`);
* `src/unnamed/part_005` — the specialist handoff suggestion engine
  (`HandoffService`);
* `src/src/chat/participant.ts` and `src/unnamed/part_009` — the
  tool-augmented conversation loop (`handleChatRequest`) and the CodeLens
  contextual suggestion engine (`BCCodeLensProvider`).

JavaScript in-memory `Map`s are modelled as insertion-ordered association
lists; stateful methods become explicit state-passing functions.
-/

namespace BCIntel

/-! ## Association-list maps (model of JS `Map` / plain-object records) -/

/-- `Map.get` / object indexing: first binding of the key, if any. -/
def getAssoc {α : Type} (m : List (String × α)) (k : String) : Option α :=
  match m with
  | [] => none
  | (k', v) :: rest => if k' = k then some v else getAssoc rest k

/-- `Map.set` / object key assignment: replace in place, or append. -/
def setAssoc {α : Type} (m : List (String × α)) (k : String) (v : α) :
    List (String × α) :=
  match m with
  | [] => [(k, v)]
  | (k', v') :: rest =>
      if k' = k then (k, v) :: rest else (k', v') :: setAssoc rest k v

theorem getAssoc_setAssoc {α : Type} (m : List (String × α)) (k k' : String)
    (v : α) :
    getAssoc (setAssoc m k v) k' = if k = k' then some v else getAssoc m k' := by
  induction m with
  | nil =>
      by_cases h : k = k' <;> simp [setAssoc, getAssoc, h]
  | cons p rest ih =>
      obtain ⟨k₀, v₀⟩ := p
      by_cases h0 : k₀ = k
      · subst h0
        by_cases h : k₀ = k' <;> simp [setAssoc, getAssoc, h]
      · by_cases h : k₀ = k'
        · subst h
          have hk : ¬ k = k₀ := fun hkk => h0 hkk.symm
          simp [setAssoc, getAssoc, h0, hk, ih]
        · simp [setAssoc, getAssoc, h0, h, ih]

/-! ## Workflow session state machine

Translated from `src/src/services/workflow-session.ts`.  The session `Map`
becomes an association list inside an explicit `WorkflowSessionManager`
state record; `Date.now()` and the random session-id generator are supplied
by the caller (the code never checks ids for collisions, so theorems that
need a fresh id take freshness as a hypothesis). -/

/-- `WorkflowPhase` (workflow-session.ts, lines 6–12). -/
structure WorkflowPhase where
  id : String
  name : String
  description : String
  checklist : List String
  nextPhaseTrigger : Option String
  deriving DecidableEq, Repr

/-- The `status` field of a `WorkflowSession` (workflow-session.ts, line 25). -/
inductive WStatus where
  | active
  | paused
  | completed
  | abandoned
  deriving DecidableEq, Repr

/-- `WorkflowSession` (workflow-session.ts, lines 17–28).  `startedAt`
(`Date`) is a numeric timestamp; `context` (a JS record of unknowns) is an
association list of strings, which suffices for every claim. -/
structure WorkflowSession where
  id : String
  workflowType : String
  workflowName : String
  startedAt : Nat
  currentPhaseIndex : Nat
  phases : List WorkflowPhase
  context : List (String × String)
  status : WStatus
  specialistId : String
  phaseResults : List (String × String)
  deriving DecidableEq, Repr

/-- One entry of the `WORKFLOW_DEFINITIONS` record. -/
structure WorkflowDefinition where
  name : String
  phases : List WorkflowPhase
  deriving DecidableEq, Repr

/-- `WORKFLOW_DEFINITIONS` (workflow-session.ts, lines 33–159), in
declaration order of the object literal. -/
def WORKFLOW_DEFINITIONS : List (String × WorkflowDefinition) :=
  [ ("code_optimization",
     { name := "Code Optimization",
       phases :=
        [ { id := "analysis", name := "Analysis",
            description := "Analyze code for performance bottlenecks",
            checklist := ["Identify hot paths", "Check SQL queries", "Review loops"],
            nextPhaseTrigger := some "Analysis complete" },
          { id := "recommendations", name := "Recommendations",
            description := "Generate optimization recommendations",
            checklist := ["Prioritize by impact", "Consider trade-offs"],
            nextPhaseTrigger := some "Recommendations approved" },
          { id := "implementation", name := "Implementation",
            description := "Apply optimizations",
            checklist := ["Apply changes", "Test performance", "Document changes"],
            nextPhaseTrigger := none } ] }),
    ("architecture_review",
     { name := "Architecture Review",
       phases :=
        [ { id := "discovery", name := "Discovery",
            description := "Understand current architecture",
            checklist := ["Map components", "Identify dependencies", "Document patterns"],
            nextPhaseTrigger := some "Architecture documented" },
          { id := "assessment", name := "Assessment",
            description := "Evaluate architecture quality",
            checklist := ["Check scalability", "Review maintainability", "Assess extensibility"],
            nextPhaseTrigger := some "Assessment complete" },
          { id := "recommendations", name := "Recommendations",
            description := "Provide improvement suggestions",
            checklist := ["Prioritize improvements", "Create roadmap"],
            nextPhaseTrigger := none } ] }),
    ("security_audit",
     { name := "Security Audit",
       phases :=
        [ { id := "scan", name := "Security Scan",
            description := "Scan for security vulnerabilities",
            checklist := ["Check permissions", "Review TableData access", "Audit external calls"],
            nextPhaseTrigger := some "Scan complete" },
          { id := "analysis", name := "Vulnerability Analysis",
            description := "Analyze identified vulnerabilities",
            checklist := ["Assess severity", "Identify root causes"],
            nextPhaseTrigger := some "Analysis complete" },
          { id := "remediation", name := "Remediation Plan",
            description := "Create remediation plan",
            checklist := ["Prioritize fixes", "Define timelines", "Assign owners"],
            nextPhaseTrigger := none } ] }),
    ("testing_strategy",
     { name := "Testing Strategy",
       phases :=
        [ { id := "assessment", name := "Coverage Assessment",
            description := "Assess current test coverage",
            checklist := ["Map test coverage", "Identify gaps"],
            nextPhaseTrigger := some "Assessment complete" },
          { id := "planning", name := "Test Planning",
            description := "Plan testing approach",
            checklist := ["Define test types", "Prioritize areas", "Set targets"],
            nextPhaseTrigger := some "Plan approved" },
          { id := "implementation", name := "Implementation",
            description := "Implement testing strategy",
            checklist := ["Write tests", "Set up CI", "Document approach"],
            nextPhaseTrigger := none } ] }),
    ("bug_investigation",
     { name := "Bug Investigation",
       phases :=
        [ { id := "reproduce", name := "Reproduce",
            description := "Reproduce the bug",
            checklist := ["Gather steps", "Identify conditions", "Document behavior"],
            nextPhaseTrigger := some "Bug reproduced" },
          { id := "diagnose", name := "Diagnose",
            description := "Find root cause",
            checklist := ["Add tracing", "Analyze logs", "Isolate cause"],
            nextPhaseTrigger := some "Root cause identified" },
          { id := "fix", name := "Fix",
            description := "Implement and verify fix",
            checklist := ["Implement fix", "Add tests", "Verify resolution"],
            nextPhaseTrigger := none } ] }) ]

/-- The mutable state of a `WorkflowSessionManager` (its `sessions` map and
`activeSessionId` pointer, workflow-session.ts lines 164–167). -/
structure WorkflowSessionManager where
  sessions : List (String × WorkflowSession) := []
  activeSessionId : Option String := none
  deriving DecidableEq, Repr

/-- `WorkflowSessionManager.startWorkflow` (lines 174–199).  `newId` and
`startedAt` stand for the generated `workflow-${Date.now()}-${random}` id
and the `Date.now()` timestamp.  `none` models the thrown
`Unknown workflow type` error (the state is untouched at the throw site). -/
def startWorkflow (m : WorkflowSessionManager) (newId : String)
    (startedAt : Nat) (workflowType specialistId : String)
    (context : List (String × String)) :
    Option (WorkflowSession × WorkflowSessionManager) :=
  match getAssoc WORKFLOW_DEFINITIONS workflowType with
  | none => none
  | some definition =>
      let session : WorkflowSession :=
        { id := newId
          workflowType := workflowType
          workflowName := definition.name
          startedAt := startedAt
          currentPhaseIndex := 0
          phases := definition.phases
          context := context
          status := WStatus.active
          specialistId := specialistId
          phaseResults := [] }
      some (session,
        { sessions := setAssoc m.sessions session.id session
          activeSessionId := some session.id })

/-- `WorkflowSessionManager.getSession` (lines 212–214). -/
def getSession (m : WorkflowSessionManager) (sessionId : String) :
    Option WorkflowSession :=
  getAssoc m.sessions sessionId

/-- `WorkflowSessionManager.getActiveSession` (lines 204–207). -/
def getActiveSession (m : WorkflowSessionManager) : Option WorkflowSession :=
  match m.activeSessionId with
  | none => none
  | some sessionId => getSession m sessionId

/-- `WorkflowSessionManager.advancePhase` (lines 228–248).  Returns the
session (`null` = `none`) together with the manager state after the call;
`(none, m)` models the early `return null`, which mutates nothing. -/
def advancePhase (m : WorkflowSessionManager) (sessionId : String)
    (phaseResults : Option String) :
    Option WorkflowSession × WorkflowSessionManager :=
  match getAssoc m.sessions sessionId with
  | none => (none, m)
  | some session =>
      if session.status ≠ WStatus.active then (none, m)
      else
        let s1 :=
          match phaseResults, session.phases.get? session.currentPhaseIndex with
          | some r, some currentPhase =>
              { session with
                  phaseResults := setAssoc session.phaseResults currentPhase.id r }
          | _, _ => session
        let s2 :=
          if s1.currentPhaseIndex < s1.phases.length - 1 then
            { s1 with currentPhaseIndex := s1.currentPhaseIndex + 1 }
          else
            { s1 with status := WStatus.completed }
        (some s2, { m with sessions := setAssoc m.sessions sessionId s2 })

/-- `WorkflowSessionManager.abandonWorkflow` (lines 253–262). -/
def abandonWorkflow (m : WorkflowSessionManager) (sessionId : String) :
    WorkflowSessionManager :=
  match getAssoc m.sessions sessionId with
  | none => m
  | some session =>
      let s' := { session with status := WStatus.abandoned }
      { sessions := setAssoc m.sessions sessionId s'
        activeSessionId :=
          if m.activeSessionId = some sessionId then none
          else m.activeSessionId }

/-- A sample session record used to instantiate the workflow theorems. -/
def sampleSession : WorkflowSession :=
  { id := "a"
    workflowType := "code_optimization"
    workflowName := "Code Optimization"
    startedAt := 0
    currentPhaseIndex := 0
    phases := []
    context := []
    status := WStatus.active
    specialistId := "sam-coder"
    phaseResults := [] }

/-- A sample manager holding `sampleSession` as the active session. -/
def sampleManager : WorkflowSessionManager :=
  { sessions := [("a", sampleSession)], activeSessionId := some "a" }

/-! ### Claims C1, C5, C9 -/

/-- **C1, counterexample.**  The claim says that after starting
`"code_optimization"`, *two* `advancePhase` calls complete the session and a
further call returns the same completed session.  In the code, after two
`advancePhase` calls the session is still `active` (at phase index 2);
completion takes a third call, and a call on the completed session returns
`null` (absent), not the session. -/
theorem c1_counterexample :
    ((startWorkflow {} "w1" 0 "code_optimization" "dean-debug" []).map (fun p =>
      let r1 := advancePhase p.2 "w1" none
      let r2 := advancePhase r1.2 "w1" none
      let r3 := advancePhase r2.2 "w1" none
      let r4 := advancePhase r3.2 "w1" none
      (r2.1.map (fun s => (s.status, s.currentPhaseIndex)),
       r3.1.map (fun s => (s.status, s.currentPhaseIndex)),
       r4.1)) =
      some (some (WStatus.active, 2), some (WStatus.completed, 2), none)) := by
  rfl

/-- **C1, amended.**  Starting `"code_optimization"` yields a session with
exactly 3 phases, `currentPhaseIndex = 0` and status `active`; calling
`advancePhase` *three* times moves it to `completed` with the index pinned
at 2; one further `advancePhase` call returns absent and leaves the manager
state unchanged (no index overflow). -/
theorem c1_amended_theorem :
    ((startWorkflow {} "w1" 0 "code_optimization" "dean-debug" []).map (fun p =>
      let r1 := advancePhase p.2 "w1" none
      let r2 := advancePhase r1.2 "w1" none
      let r3 := advancePhase r2.2 "w1" none
      let r4 := advancePhase r3.2 "w1" none
      (p.1.phases.length, p.1.currentPhaseIndex, p.1.status,
       r3.1.map (fun s => (s.status, s.currentPhaseIndex)),
       r4.1, decide (r4.2 = r3.2))) =
      some (3, 0, WStatus.active, some (WStatus.completed, 2), none, true)) := by
  rfl

/-- **C5, counterexample.**  The claim says no manager operation ever changes
the status of a session that is already `completed`.  But `abandonWorkflow`
on a completed session overwrites its status with `abandoned`: complete a
`code_optimization` session with three `advancePhase` calls, then call
`abandonWorkflow` on it. -/
theorem c5_counterexample :
    ((startWorkflow {} "w1" 0 "code_optimization" "dean-debug" []).map (fun p =>
      let r1 := advancePhase p.2 "w1" none
      let r2 := advancePhase r1.2 "w1" none
      let r3 := advancePhase r2.2 "w1" none
      let m4 := abandonWorkflow r3.2 "w1"
      ((getSession r3.2 "w1").map (·.status),
       (getSession m4 "w1").map (·.status))) =
      some (some WStatus.completed, some WStatus.abandoned)) := by
  rfl

/-- **C5, amended.**  `completed` and `abandoned` are terminal for
`advancePhase` (which returns absent and leaves the state unchanged) and
for `startWorkflow` with a fresh id (which leaves every existing session
untouched), and `abandoned` is terminal for `abandonWorkflow` as well; but
`abandonWorkflow` re-marks an already-`completed` session as `abandoned`. -/
theorem c5_amended_theorem :
    (∀ (m : WorkflowSessionManager) (sid : String) (r : Option String)
       (s : WorkflowSession), getSession m sid = some s →
       (s.status = WStatus.completed ∨ s.status = WStatus.abandoned) →
       advancePhase m sid r = (none, m)) ∧
    (∀ (m : WorkflowSessionManager) (newId : String) (st : Nat)
       (t sp : String) (ctx : List (String × String))
       (res : WorkflowSession × WorkflowSessionManager) (sid : String)
       (s : WorkflowSession),
       getSession m newId = none →
       startWorkflow m newId st t sp ctx = some res →
       getSession m sid = some s →
       getSession res.2 sid = some s) ∧
    (∀ (m : WorkflowSessionManager) (sid : String) (s : WorkflowSession),
       getSession m sid = some s → s.status = WStatus.abandoned →
       getSession (abandonWorkflow m sid) sid = some s) ∧
    (∀ (m : WorkflowSessionManager) (sid : String) (s : WorkflowSession),
       getSession m sid = some s → s.status = WStatus.completed →
       (getSession (abandonWorkflow m sid) sid).map (·.status) =
         some WStatus.abandoned) := by
  refine ⟨?_, ?_, ?_, ?_⟩
  · intro m sid r s hs hterm
    unfold getSession at hs
    unfold advancePhase
    rw [hs]
    rcases hterm with h | h <;> simp [h]
  · intro m newId st t sp ctx res sid s hfresh hsw hs
    unfold getSession at hfresh hs ⊢
    unfold startWorkflow at hsw
    cases hdef : getAssoc WORKFLOW_DEFINITIONS t with
    | none => rw [hdef] at hsw; exact absurd hsw (by simp)
    | some definition =>
        rw [hdef] at hsw
        simp only [Option.some.injEq] at hsw
        have hne : newId ≠ sid := by
          intro h; rw [h, hs] at hfresh; exact Option.noConfusion hfresh
        rw [← hsw]
        simp [getAssoc_setAssoc, hne, hs]
  · intro m sid s hs hstat
    unfold getSession at hs ⊢
    unfold abandonWorkflow
    rw [hs]
    have hupd : ({ s with status := WStatus.abandoned } : WorkflowSession) = s := by
      cases s; simp_all
    simp [getAssoc_setAssoc, hupd]
  · intro m sid s hs _
    unfold getSession at hs ⊢
    unfold abandonWorkflow
    rw [hs]
    simp [getAssoc_setAssoc]

/-- **C5, witness** for the amended theorem: `advancePhase` on a concrete
completed session is a no-op returning absent. -/
theorem c5_witness :
    advancePhase
      { sessions := [("a", { sampleSession with status := WStatus.completed })],
        activeSessionId := some "a" } "a" none =
      (none,
       { sessions := [("a", { sampleSession with status := WStatus.completed })],
         activeSessionId := some "a" }) :=
  c5_amended_theorem.1
    { sessions := [("a", { sampleSession with status := WStatus.completed })],
      activeSessionId := some "a" }
    "a" none { sampleSession with status := WStatus.completed }
    (by decide) (Or.inl rfl)

/-- **C9.**  Starting a new workflow (with a fresh session id) while another
session is active leaves the prior session's record in the session map
completely unchanged; only the active-session pointer is redirected to the
new session, so the prior session is no longer the one returned by
`getActiveSession` but is still reachable by id.  Every other session is
likewise untouched. -/
theorem c9_theorem (m : WorkflowSessionManager) (aId newId : String)
    (A : WorkflowSession) (st : Nat) (t sp : String)
    (ctx : List (String × String)) (s' : WorkflowSession)
    (m' : WorkflowSessionManager)
    (hact : m.activeSessionId = some aId)
    (hA : getSession m aId = some A)
    (hfresh : getSession m newId = none)
    (hsw : startWorkflow m newId st t sp ctx = some (s', m')) :
    getSession m' aId = some A ∧
    m'.activeSessionId = some newId ∧
    getActiveSession m' = some s' ∧
    s'.id = newId ∧ s'.status = WStatus.active ∧ aId ≠ newId ∧
    (∀ k, k ≠ newId → getSession m' k = getSession m k) := by
  unfold getSession at hA hfresh
  unfold startWorkflow at hsw
  cases hdef : getAssoc WORKFLOW_DEFINITIONS t with
  | none => rw [hdef] at hsw; exact absurd hsw (by simp)
  | some definition =>
      rw [hdef] at hsw
      simp only [Option.some.injEq, Prod.mk.injEq] at hsw
      obtain ⟨hs', hm'⟩ := hsw
      subst hs'
      subst hm'
      have hne : aId ≠ newId := by
        intro h; rw [h, hfresh] at hA; exact Option.noConfusion hA
      refine ⟨?_, rfl, ?_, rfl, rfl, hne, ?_⟩
      · unfold getSession
        simp only [getAssoc_setAssoc]
        simp [hA]
        intro h
        exact absurd h.symm hne
      · unfold getActiveSession getSession
        simp only [getAssoc_setAssoc]
        simp
      · intro k hk
        unfold getSession
        simp only [getAssoc_setAssoc]
        simp
        intro h
        exact absurd h.symm hk

/-- **C9, witness**: starting `"code_optimization"` with fresh id `"b"` over
`sampleManager` (whose active session is `"a"`) keeps session `"a"` intact
and redirects the active pointer to `"b"`. -/
theorem c9_witness :
    getSession
      { sessions :=
          [("a", sampleSession),
           ("b", { id := "b", workflowType := "code_optimization",
                   workflowName := "Code Optimization", startedAt := 1,
                   currentPhaseIndex := 0,
                   phases :=
                     ((getAssoc WORKFLOW_DEFINITIONS "code_optimization").map (fun d => d.phases)).getD [],
                   context := [], status := WStatus.active,
                   specialistId := "sam-coder", phaseResults := [] })],
        activeSessionId := some "b" } "a" = some sampleSession ∧
    (some "b" : Option String) = some "b" := by
  have h := c9_theorem sampleManager "a" "b" sampleSession 1
    "code_optimization" "sam-coder" []
    { id := "b", workflowType := "code_optimization",
      workflowName := "Code Optimization", startedAt := 1,
      currentPhaseIndex := 0,
      phases := ((getAssoc WORKFLOW_DEFINITIONS "code_optimization").map (fun d => d.phases)).getD [],
      context := [], status := WStatus.active,
      specialistId := "sam-coder", phaseResults := [] }
    { sessions :=
        [("a", sampleSession),
         ("b", { id := "b", workflowType := "code_optimization",
                 workflowName := "Code Optimization", startedAt := 1,
                 currentPhaseIndex := 0,
                 phases := ((getAssoc WORKFLOW_DEFINITIONS "code_optimization").map (fun d => d.phases)).getD [],
                 context := [], status := WStatus.active,
                 specialistId := "sam-coder", phaseResults := [] })],
      activeSessionId := some "b" }
    rfl (by decide) (by decide) (by decide)
  exact ⟨h.1, rfl⟩

/-! ## Handoff suggestion engine

Translated from the `HandoffService` of `src/unnamed/part_005`.  A compiled
regex (`RegExp.test`) is modelled as an opaque predicate `String → Bool`;
the trigger table and the specialist registry are parameters, matching the
claims, which quantify over "message and trigger tables".  JS
`String.prototype.includes` and `toLowerCase` are implemented over
character lists. -/

/-- `charsPrefix sub hay`: `sub` is a prefix of `hay`. -/
def charsPrefix : List Char → List Char → Bool
  | [], _ => true
  | _ :: _, [] => false
  | a :: as, b :: bs => a == b && charsPrefix as bs

/-- Substring search underlying `String.prototype.includes`. -/
def charsContainsSub : List Char → List Char → Bool
  | [], sub => sub.isEmpty
  | hay@(_ :: t), sub => charsPrefix sub hay || charsContainsSub t sub

/-- JS `s.includes(sub)`. -/
def strIncludes (s sub : String) : Bool :=
  charsContainsSub s.toList sub.toList

/-- JS `s.toLowerCase()` (ASCII case folding, which covers every trigger
keyword in the repository). -/
def lowerStr (s : String) : String :=
  String.mk (s.toList.map Char.toLower)

/-- The fields of a specialist definition read by the `HandoffService`
(`SpecialistDefinition` of `src/unnamed/part_006`, restricted to the fields
the handoff engine dereferences). -/
structure SpecialistDefinition where
  specialist_id : String
  title : String
  emoji : String
  role : String
  expertise_primary : List String
  natural_handoffs : List String
  deriving DecidableEq, Repr

/-- One entry of `HANDOFF_TRIGGERS`: keyword list plus compiled regex
patterns, each pattern modelled by its `RegExp.test` predicate. -/
structure HandoffTriggers where
  keywords : List String
  patterns : List (String → Bool)

/-- The confidence level of a `HandoffSuggestion`. -/
inductive Confidence where
  | high
  | medium
  | low
  deriving DecidableEq, Repr

/-- `HandoffSuggestion` (part_005). -/
structure HandoffSuggestion where
  fromSpecialist : String
  toSpecialist : String
  reason : String
  confidence : Confidence
  deriving DecidableEq, Repr

/-- `HandoffService.calculateHandoffScore` (part_005, lines 392–414):
1 point per keyword case-insensitively contained in the message, 2 points
per pattern matching the raw message. -/
def calculateHandoffScore (message : String) (triggers : HandoffTriggers) :
    Nat :=
  let lowerMessage := lowerStr message
  let score := triggers.keywords.foldl
    (fun score keyword =>
      if strIncludes lowerMessage (lowerStr keyword) then score + 1 else score)
    0
  triggers.patterns.foldl
    (fun score pattern => if pattern message then score + 2 else score) score

/-- `HandoffService.scoreToConfidence` (part_005, lines 419–426). -/
def scoreToConfidence (score : Nat) (isNaturalHandoff : Bool) : Confidence :=
  let adjustedScore := if isNaturalHandoff then score + 1 else score
  if adjustedScore ≥ 4 then Confidence.high
  else if adjustedScore ≥ 2 then Confidence.medium
  else Confidence.low

/-- The characters of `hay` before the first occurrence of `sub`
(the whole of `hay` when `sub` does not occur): JS `hay.split(sub)[0]`
for a non-empty separator. -/
def takeUntilSub : List Char → List Char → List Char
  | [], _ => []
  | c :: t, sub =>
      if charsPrefix sub (c :: t) then [] else c :: takeUntilSub t sub

/-- JS `s.split(sep)[0]` (only element 0 of the split is ever read by the
handoff service). -/
def splitHead (s sep : String) : String :=
  String.mk (takeUntilSub s.toList sep.toList)

/-- `HandoffService.generateHandoffReason` (part_005, lines 431–456). -/
def generateHandoffReason (targetSpecialist : SpecialistDefinition)
    (triggers : HandoffTriggers) (userMessage : String) : String :=
  let lowerMessage := lowerStr userMessage
  let matchedKeywords := triggers.keywords.filter
    (fun keyword => strIncludes lowerMessage (lowerStr keyword))
  if matchedKeywords.length > 0 then
    let keywordList := String.intercalate " and " (matchedKeywords.take 2)
    "Your question about " ++ keywordList ++ " aligns with " ++
      splitHead targetSpecialist.title " - " ++
      String.singleton '\x27' ++ "s expertise in " ++
      (targetSpecialist.expertise_primary.headD "undefined") ++ "."
  else
    splitHead targetSpecialist.title " - " ++ " specializes in " ++
      targetSpecialist.role ++ "."

/-- The rank used by the final sort of `suggestHandoffs`
(`confidenceOrder = { high: 0, medium: 1, low: 2 }`). -/
def confidenceOrder : Confidence → Nat
  | Confidence.high => 0
  | Confidence.medium => 1
  | Confidence.low => 2

/-- One step of a stable insertion sort: place `x` after every element of
strictly smaller rank and before the first element of rank `≥ rank x`. -/
def insertByRank {α : Type} (rank : α → Nat) (x : α) : List α → List α
  | [] => [x]
  | y :: ys =>
      if rank y < rank x then y :: insertByRank rank x ys else x :: y :: ys

/-- Stable sort by a numeric rank.  This is the semantics guaranteed for
`Array.prototype.sort` with the comparator
`confidenceOrder[a] - confidenceOrder[b]` (JS sorts are stable). -/
def sortByRank {α : Type} (rank : α → Nat) : List α → List α
  | [] => []
  | x :: xs => insertByRank rank x (sortByRank rank xs)

/-- The `for (const [specialistId, triggers] of Object.entries(...))` body
of `suggestHandoffs` (part_005, lines 345–380): the suggestion list in
encounter order, before sorting and truncation. -/
def handoffCandidates (specialists : List (String × SpecialistDefinition))
    (currentSpecialistId userMessage : String)
    (currentSpecialist : SpecialistDefinition) :
    List (String × HandoffTriggers) → List HandoffSuggestion
  | [] => []
  | (specialistId, triggers) :: rest =>
      let tail := handoffCandidates specialists currentSpecialistId
        userMessage currentSpecialist rest
      if specialistId = currentSpecialistId then tail
      else
        let score := calculateHandoffScore userMessage triggers
        if score > 0 then
          match getAssoc specialists specialistId with
          | none => tail
          | some targetSpecialist =>
              { fromSpecialist := currentSpecialistId
                toSpecialist := specialistId
                reason := generateHandoffReason targetSpecialist triggers
                  userMessage
                confidence := scoreToConfidence score
                  (currentSpecialist.natural_handoffs.contains specialistId)
              } :: tail
        else tail

/-- `HandoffService.suggestHandoffs` (part_005, lines 345–387): empty when
the current specialist is unknown; otherwise candidates in encounter order,
stably sorted by confidence and truncated to the top 2. -/
def suggestHandoffs (specialists : List (String × SpecialistDefinition))
    (handoffTriggers : List (String × HandoffTriggers))
    (currentSpecialistId userMessage : String) : List HandoffSuggestion :=
  match getAssoc specialists currentSpecialistId with
  | none => []
  | some currentSpecialist =>
      (sortByRank (fun s => confidenceOrder s.confidence)
        (handoffCandidates specialists currentSpecialistId userMessage
          currentSpecialist handoffTriggers)).take 2

theorem mem_insertByRank {α : Type} (rank : α → Nat) (a x : α) (l : List α) :
    x ∈ insertByRank rank a l ↔ x = a ∨ x ∈ l := by
  induction l with
  | nil => simp [insertByRank]
  | cons y ys ih =>
      by_cases h : rank y < rank a
      · simp only [insertByRank, if_pos h, List.mem_cons, ih]
        tauto
      · simp only [insertByRank, if_neg h, List.mem_cons]

theorem mem_sortByRank {α : Type} (rank : α → Nat) (x : α) (l : List α) :
    x ∈ sortByRank rank l ↔ x ∈ l := by
  induction l with
  | nil => simp [sortByRank]
  | cons y ys ih => simp [sortByRank, mem_insertByRank, ih]

theorem insertByRank_front {α : Type} (rank : α → Nat) (x : α) (l : List α)
    (h : ∀ y ∈ l, ¬ rank y < rank x) :
    insertByRank rank x l = x :: l := by
  cases l with
  | nil => rfl
  | cons y ys => simp [insertByRank, h y (by simp)]

theorem insertByRank_append {α : Type} (rank : α → Nat) (x : α)
    (l1 l2 : List α) (h : ∀ y ∈ l1, rank y < rank x) :
    insertByRank rank x (l1 ++ l2) = l1 ++ insertByRank rank x l2 := by
  induction l1 with
  | nil => rfl
  | cons y ys ih =>
      have hy := h y (by simp)
      rw [List.cons_append]
      rw [show insertByRank rank x (y :: (ys ++ l2)) =
            y :: insertByRank rank x (ys ++ l2) by
        rw [insertByRank, if_pos hy]]
      rw [ih (fun z hz => h z (by simp [hz])), List.cons_append]

/-- A stable sort by a rank bounded by 2 groups the list into the rank-0
elements, then the rank-1 elements, then the rank-2 elements, each group in
original order. -/
theorem sortByRank_eq_filters {α : Type} (rank : α → Nat) (l : List α)
    (h : ∀ x ∈ l, rank x ≤ 2) :
    sortByRank rank l =
      l.filter (fun x => rank x == 0) ++ l.filter (fun x => rank x == 1) ++
        l.filter (fun x => rank x == 2) := by
  induction l with
  | nil => simp [sortByRank]
  | cons x xs ih =>
      have hx : rank x ≤ 2 := h x (by simp)
      have ih' := ih (fun y hy => h y (by simp [hy]))
      have h0 : ∀ y ∈ xs.filter (fun z => rank z == 0), rank y = 0 := by
        intro y hy
        simpa using (List.mem_filter.mp hy).2
      have h1 : ∀ y ∈ xs.filter (fun z => rank z == 1), rank y = 1 := by
        intro y hy
        simpa using (List.mem_filter.mp hy).2
      have h2 : ∀ y ∈ xs.filter (fun z => rank z == 2), rank y = 2 := by
        intro y hy
        simpa using (List.mem_filter.mp hy).2
      have hcases : rank x = 0 ∨ rank x = 1 ∨ rank x = 2 := by omega
      rcases hcases with hr | hr | hr
      · rw [sortByRank, ih', insertByRank_front]
        · simp [List.filter_cons, hr]
        · intro y hy
          omega
      · rw [sortByRank, ih', List.append_assoc, insertByRank_append,
            insertByRank_front]
        · simp [List.filter_cons, hr, List.append_assoc]
        · intro y hy
          rcases List.mem_append.mp hy with hy1 | hy2
          · rw [h1 y hy1, hr]; omega
          · rw [h2 y hy2, hr]; omega
        · intro y hy
          rw [h0 y hy, hr]; omega
      · rw [sortByRank, ih', insertByRank_append, insertByRank_front]
        · simp [List.filter_cons, hr]
        · intro y hy
          rw [h2 y hy, hr]; omega
        · intro y hy
          rcases List.mem_append.mp hy with hy1 | hy2
          · rw [h0 y hy1, hr]; omega
          · rw [h1 y hy2, hr]; omega

theorem keywordsFoldCount (msg : String) (l : List String) (a : Nat) :
    l.foldl
      (fun score keyword =>
        if strIncludes (lowerStr msg) (lowerStr keyword) then score + 1
        else score) a =
      a + (l.filter
        (fun kw => strIncludes (lowerStr msg) (lowerStr kw))).length := by
  induction l generalizing a with
  | nil => simp
  | cons x xs ih =>
      rw [List.foldl_cons, List.filter_cons]
      by_cases h : strIncludes (lowerStr msg) (lowerStr x)
      · rw [if_pos h, ih]
        simp only [h, if_true, List.length_cons]
        generalize (List.filter
          (fun kw => strIncludes (lowerStr msg) (lowerStr kw)) xs).length = n
        omega
      · rw [if_neg h, ih]
        simp [h]

theorem patternsFoldCount (msg : String) (l : List (String → Bool))
    (a : Nat) :
    l.foldl (fun score pattern => if pattern msg then score + 2 else score)
      a = a + 2 * (l.filter (fun p => p msg)).length := by
  induction l generalizing a with
  | nil => simp
  | cons x xs ih =>
      rw [List.foldl_cons, List.filter_cons]
      by_cases h : x msg
      · rw [if_pos h, ih]
        simp only [h, if_true, List.length_cons]
        generalize (List.filter (fun p => p msg) xs).length = n
        omega
      · rw [if_neg h, ih]
        simp [h]

/-- Every suggestion produced by the candidate loop points away from the
current specialist, comes from a trigger-table entry whose score against
the message is positive, and carries the confidence computed from that
score and the natural-handoff boost. -/
theorem mem_handoffCandidates
    {specialists : List (String × SpecialistDefinition)}
    {currentId userMessage : String} {current : SpecialistDefinition}
    {table : List (String × HandoffTriggers)} {s : HandoffSuggestion}
    (hs : s ∈ handoffCandidates specialists currentId userMessage current
      table) :
    s.fromSpecialist = currentId ∧ s.toSpecialist ≠ currentId ∧
    ∃ trig, (s.toSpecialist, trig) ∈ table ∧
      0 < calculateHandoffScore userMessage trig ∧
      s.confidence = scoreToConfidence (calculateHandoffScore userMessage trig)
        (current.natural_handoffs.contains s.toSpecialist) := by
  induction table with
  | nil => simp [handoffCandidates] at hs
  | cons entry rest ih =>
      obtain ⟨sid, trig⟩ := entry
      rw [handoffCandidates] at hs
      by_cases heq : sid = currentId
      · rw [if_pos heq] at hs
        obtain ⟨h1, h2, trig', h3, h4, h5⟩ := ih hs
        exact ⟨h1, h2, trig', List.mem_cons_of_mem _ h3, h4, h5⟩
      · rw [if_neg heq] at hs
        by_cases hsc : calculateHandoffScore userMessage trig > 0
        · rw [if_pos hsc] at hs
          cases hget : getAssoc specialists sid with
          | none =>
              rw [hget] at hs
              obtain ⟨h1, h2, trig', h3, h4, h5⟩ := ih hs
              exact ⟨h1, h2, trig', List.mem_cons_of_mem _ h3, h4, h5⟩
          | some target =>
              rw [hget] at hs
              rcases List.mem_cons.mp hs with hhead | htail
              · subst hhead
                exact ⟨rfl, heq, trig, List.mem_cons_self _ _, hsc, rfl⟩
              · obtain ⟨h1, h2, trig', h3, h4, h5⟩ := ih htail
                exact ⟨h1, h2, trig', List.mem_cons_of_mem _ h3, h4, h5⟩
        · rw [if_neg hsc] at hs
          obtain ⟨h1, h2, trig', h3, h4, h5⟩ := ih hs
          exact ⟨h1, h2, trig', List.mem_cons_of_mem _ h3, h4, h5⟩

/-- `confidenceOrder` only takes the values 0, 1, 2. -/
theorem confidenceOrder_le_two (c : Confidence) : confidenceOrder c ≤ 2 := by
  cases c <;> simp [confidenceOrder]

/-! ### Claims C6, C7, C10 -/

/-- **C6.**  `suggestHandoffs` never returns the current specialist among
its suggestions, returns at most 2 entries, returns them grouped high
before medium before low with ties in encounter order (the stable-sort
image of the candidate list, truncated to two), and is deterministic:
identical registry, trigger table, current id and message give the
identical ordered list. -/
theorem c6_theorem (specialists : List (String × SpecialistDefinition))
    (table : List (String × HandoffTriggers)) (currentId msg : String) :
    (∀ s ∈ suggestHandoffs specialists table currentId msg,
       s.toSpecialist ≠ currentId) ∧
    (suggestHandoffs specialists table currentId msg).length ≤ 2 ∧
    (∀ current, getAssoc specialists currentId = some current →
       suggestHandoffs specialists table currentId msg =
         ((handoffCandidates specialists currentId msg current table).filter
            (fun s => s.confidence == Confidence.high) ++
          (handoffCandidates specialists currentId msg current table).filter
            (fun s => s.confidence == Confidence.medium) ++
          (handoffCandidates specialists currentId msg current table).filter
            (fun s => s.confidence == Confidence.low)).take 2) ∧
    (∀ specialists2 table2 currentId2 msg2,
       specialists = specialists2 → table = table2 → currentId = currentId2 →
       msg = msg2 →
       suggestHandoffs specialists table currentId msg =
         suggestHandoffs specialists2 table2 currentId2 msg2) := by
  refine ⟨?_, ?_, ?_, ?_⟩
  · intro s hs
    unfold suggestHandoffs at hs
    cases hcur : getAssoc specialists currentId with
    | none => rw [hcur] at hs; simp at hs
    | some current =>
        rw [hcur] at hs
        have hmem := mem_sortByRank (fun s => confidenceOrder s.confidence) s
          (handoffCandidates specialists currentId msg current table)
        exact (mem_handoffCandidates
          (hmem.mp (List.mem_of_mem_take hs))).2.1
  · unfold suggestHandoffs
    cases hcur : getAssoc specialists currentId with
    | none => simp
    | some current =>
        simp [List.length_take]
  · intro current hcur
    have hred : suggestHandoffs specialists table currentId msg =
        (sortByRank (fun s => confidenceOrder s.confidence)
          (handoffCandidates specialists currentId msg current
            table)).take 2 := by
      unfold suggestHandoffs
      rw [hcur]
    rw [hred]
    have hb : ∀ s ∈ handoffCandidates specialists currentId msg current
        table, confidenceOrder s.confidence ≤ 2 :=
      fun s _ => confidenceOrder_le_two s.confidence
    rw [sortByRank_eq_filters _ _ hb]
    have e0 : (handoffCandidates specialists currentId msg current
        table).filter (fun s => confidenceOrder s.confidence == 0) =
        (handoffCandidates specialists currentId msg current table).filter
          (fun s => s.confidence == Confidence.high) := by
      apply List.filter_congr
      intro a _
      cases a.confidence <;> rfl
    have e1 : (handoffCandidates specialists currentId msg current
        table).filter (fun s => confidenceOrder s.confidence == 1) =
        (handoffCandidates specialists currentId msg current table).filter
          (fun s => s.confidence == Confidence.medium) := by
      apply List.filter_congr
      intro a _
      cases a.confidence <;> rfl
    have e2 : (handoffCandidates specialists currentId msg current
        table).filter (fun s => confidenceOrder s.confidence == 2) =
        (handoffCandidates specialists currentId msg current table).filter
          (fun s => s.confidence == Confidence.low) := by
      apply List.filter_congr
      intro a _
      cases a.confidence <;> rfl
    rw [e0, e1, e2]
  · intro specialists2 table2 currentId2 msg2 h1 h2 h3 h4
    subst h1; subst h2; subst h3; subst h4
    rfl

/-- **C7.**  The handoff score is exactly (matched keywords) × 1 +
(matching patterns) × 2; a suggestion is emitted only when that score is
positive, and its confidence is `scoreToConfidence` of that score with the
natural-handoff boost, where the adjusted score maps to high at ≥ 4, to
medium at ≥ 2, and to low below 2. -/
theorem c7_theorem (msg : String) (triggers : HandoffTriggers)
    (specialists : List (String × SpecialistDefinition))
    (table : List (String × HandoffTriggers)) (currentId : String) :
    (calculateHandoffScore msg triggers =
       (triggers.keywords.filter
         (fun kw => strIncludes (lowerStr msg) (lowerStr kw))).length * 1 +
       (triggers.patterns.filter (fun p => p msg)).length * 2) ∧
    (∀ current, getAssoc specialists currentId = some current →
       ∀ s ∈ suggestHandoffs specialists table currentId msg,
         ∃ trig, (s.toSpecialist, trig) ∈ table ∧
           0 < calculateHandoffScore msg trig ∧
           s.confidence = scoreToConfidence (calculateHandoffScore msg trig)
             (current.natural_handoffs.contains s.toSpecialist)) ∧
    (∀ score isNat,
       (scoreToConfidence score isNat = Confidence.high ↔
          4 ≤ (if isNat then score + 1 else score)) ∧
       (scoreToConfidence score isNat = Confidence.medium ↔
          (2 ≤ (if isNat then score + 1 else score) ∧
           (if isNat then score + 1 else score) < 4)) ∧
       (scoreToConfidence score isNat = Confidence.low ↔
          (if isNat then score + 1 else score) < 2)) := by
  refine ⟨?_, ?_, ?_⟩
  · rw [show calculateHandoffScore msg triggers =
        triggers.patterns.foldl
          (fun score pattern => if pattern msg then score + 2 else score)
          (triggers.keywords.foldl
            (fun score keyword =>
              if strIncludes (lowerStr msg) (lowerStr keyword) then score + 1
              else score) 0) from rfl]
    rw [patternsFoldCount, keywordsFoldCount]
    generalize (List.filter
      (fun kw => strIncludes (lowerStr msg) (lowerStr kw))
      triggers.keywords).length = nk
    generalize (List.filter (fun p => p msg) triggers.patterns).length = np
    omega
  · intro current hcur s hs
    unfold suggestHandoffs at hs
    rw [hcur] at hs
    have hmem := mem_sortByRank (fun s => confidenceOrder s.confidence) s
      (handoffCandidates specialists currentId msg current table)
    obtain ⟨_, _, trig, h3, h4, h5⟩ := mem_handoffCandidates
      (hmem.mp (List.mem_of_mem_take hs))
    exact ⟨trig, h3, h4, h5⟩
  · intro score isNat
    have hadj : scoreToConfidence score isNat =
        (if (if isNat then score + 1 else score) ≥ 4 then Confidence.high
         else if (if isNat then score + 1 else score) ≥ 2 then
           Confidence.medium
         else Confidence.low) := rfl
    rw [hadj]
    split_ifs <;> refine ⟨?_, ?_, ?_⟩ <;> simp_all <;> omega

/-- **C10.**  When the current specialist id is missing from the registry,
`suggestHandoffs` returns the empty list no matter how strongly the message
matches, and (being a pure function of its inputs) modifies no state. -/
theorem c10_theorem (specialists : List (String × SpecialistDefinition))
    (table : List (String × HandoffTriggers)) (currentId msg : String)
    (h : getAssoc specialists currentId = none) :
    suggestHandoffs specialists table currentId msg = [] := by
  unfold suggestHandoffs
  rw [h]

/-- Specialist fixtures used by the handoff witnesses. -/
def samSpecialist : SpecialistDefinition :=
  { specialist_id := "sam-coder", title := "Sam", emoji := "S",
    role := "core coding", expertise_primary := ["al"],
    natural_handoffs := ["eva-errors"] }

/-- Second specialist fixture. -/
def evaSpecialist : SpecialistDefinition :=
  { specialist_id := "eva-errors", title := "Eva", emoji := "E",
    role := "error handling", expertise_primary := ["errors"],
    natural_handoffs := [] }

/-- Registry fixture for the handoff witnesses. -/
def sampleRegistry : List (String × SpecialistDefinition) :=
  [("sam-coder", samSpecialist), ("eva-errors", evaSpecialist)]

/-- Trigger-table fixture: one always-matching pattern for `eva-errors`. -/
def sampleTriggerTable : List (String × HandoffTriggers) :=
  [("eva-errors", { keywords := [], patterns := [fun _ => true] })]

/-- **C6, witness**: on the concrete fixtures the single suggestion points
to `eva-errors`, not back to the current specialist, and the output length
is within 2. -/
theorem c6_witness :
    ({ fromSpecialist := "sam-coder", toSpecialist := "eva-errors",
       reason := "Eva specializes in error handling.",
       confidence := Confidence.medium } : HandoffSuggestion).toSpecialist ≠
      "sam-coder" ∧
    (suggestHandoffs sampleRegistry sampleTriggerTable "sam-coder"
      "m").length ≤ 2 :=
  ⟨(c6_theorem sampleRegistry sampleTriggerTable "sam-coder" "m").1
      { fromSpecialist := "sam-coder", toSpecialist := "eva-errors",
        reason := "Eva specializes in error handling.",
        confidence := Confidence.medium } (by decide),
   (c6_theorem sampleRegistry sampleTriggerTable "sam-coder" "m").2.1⟩

/-- **C7, witness**: on the concrete fixtures the emitted suggestion for
`eva-errors` has a positive score (2, one pattern) and confidence medium
(score 2 boosted to 3 by the natural handoff). -/
theorem c7_witness :
    ∃ trig, (("eva-errors" : String), trig) ∈ sampleTriggerTable ∧
      0 < calculateHandoffScore "m" trig ∧
      Confidence.medium = scoreToConfidence (calculateHandoffScore "m" trig)
        (samSpecialist.natural_handoffs.contains "eva-errors") :=
  ( c7_theorem "m" { keywords := [], patterns := [] } sampleRegistry
      sampleTriggerTable "sam-coder").2.1 samSpecialist (by decide)
    { fromSpecialist := "sam-coder", toSpecialist := "eva-errors",
      reason := "Eva specializes in error handling.",
      confidence := Confidence.medium } (by decide)

/-- **C10, witness**: a registry without the current id yields no
suggestions even though the message matches the other specialist. -/
theorem c10_witness :
    suggestHandoffs [("eva-errors", evaSpecialist)] sampleTriggerTable
      "sam-coder" "error error not working" = [] :=
  c10_theorem [("eva-errors", evaSpecialist)] sampleTriggerTable
    "sam-coder" "error error not working" (by decide)

/-! ## Tool-augmented conversation loop

Translated from `handleChatRequest` of `src/src/chat/participant.ts`
(lines 169–254) and `src/unnamed/part_009` (lines 187–272); the two copies
of the tool-calling loop are textually identical.  The language model is a
script: the `k`-th `model.sendRequest` call is answered by the `k`-th round
of the script, a list of streamed fragments (text or tool-call parts).
The external tool surface (`vscode.lm.invokeTool`) is a function returning
either a result payload or a thrown error message.  The cancellation token
is a function giving the value of `token.isCancellationRequested` when the
`while` guard reads it with the iteration counter at a given value.  Every
observable action (markdown streamed, progress note, tool invocation,
model request) is recorded as an event tagged with the value of the
`iteration` variable at the time it happens (0 = before the loop). -/

/-- A fragment of a streamed model response: a `LanguageModelTextPart` or a
`LanguageModelToolCallPart` (callId, name, input). -/
inductive Fragment where
  | text (s : String)
  | toolCall (callId name input : String)
  deriving DecidableEq, Repr

/-- A tool-call part: call id, tool name, structured input. -/
abbrev ToolCallPart := String × String × String

/-- One turn of the `messages` transcript sent to the model. -/
inductive ChatMsg where
  | userText (s : String)
  | assistantText (s : String)
  | assistantToolCalls (calls : List ToolCallPart)
  | userToolResults (results : List (String × String))
  deriving DecidableEq, Repr

/-- An observable action of `handleChatRequest`, recorded in order. -/
inductive LoopEvent where
  | markdown (s : String)
  | progressNote (s : String)
  | toolInvocation (callId name input : String)
  | modelRequest (sent : List ChatMsg)
  deriving DecidableEq, Repr

/-- The observable outcome of one `handleChatRequest` run: final transcript,
the tagged event log, and the final value of the `iteration` counter. -/
structure LoopResult where
  messages : List ChatMsg
  events : List (Nat × LoopEvent)
  iterations : Nat
  deriving DecidableEq, Repr

/-- `MAX_TOOL_ITERATIONS` (participant.ts line 6). -/
def MAX_TOOL_ITERATIONS : Nat := 10

/-- The `for await (const fragment of currentResponse.stream)` pass:
markdown events for the text fragments, in stream order. -/
def textEvents (iter : Nat) : List Fragment → List (Nat × LoopEvent)
  | [] => []
  | Fragment.text s :: rest =>
      (iter, LoopEvent.markdown s) :: textEvents iter rest
  | Fragment.toolCall _ _ _ :: rest => textEvents iter rest

/-- The tool calls buffered by the same pass, in stream order. -/
def bufferedToolCalls : List Fragment → List ToolCallPart
  | [] => []
  | Fragment.text _ :: rest => bufferedToolCalls rest
  | Fragment.toolCall c n i :: rest => (c, n, i) :: bufferedToolCalls rest

/-- The error note streamed inline when a tool invocation throws. -/
def toolFailNote (name e : String) : String :=
  "\n\n⚠️ Tool " ++ name ++ " failed: " ++ e ++ "\n\n"

/-- The payload of the synthesized tool-result part on the failure path. -/
def toolFailText (name e : String) : String :=
  "Tool " ++ name ++ " failed: " ++ e

/-- The `for (const toolCall of toolCalls)` execution loop (participant.ts
lines 202–235): events (progress note, invocation, inline error note on
throw), the `assistantToolCalls` buffer and the `toolResultParts` buffer. -/
def execToolCalls (execTool : String → String → Except String String)
    (iter : Nat) :
    List ToolCallPart →
      List (Nat × LoopEvent) × List ToolCallPart × List (String × String)
  | [] => ([], [], [])
  | (callId, name, input) :: rest =>
      let r := execToolCalls execTool iter rest
      match execTool name input with
      | Except.ok result =>
          ((iter, LoopEvent.progressNote ("Using tool: " ++ name ++ "...")) ::
             (iter, LoopEvent.toolInvocation callId name input) :: r.1,
           (callId, name, input) :: r.2.1,
           (callId, result) :: r.2.2)
      | Except.error e =>
          ((iter, LoopEvent.progressNote ("Using tool: " ++ name ++ "...")) ::
             (iter, LoopEvent.toolInvocation callId name input) ::
             (iter, LoopEvent.markdown (toolFailNote name e)) :: r.1,
           (callId, name, input) :: r.2.1,
           (callId, toolFailText name e) :: r.2.2)

/-- The `while (iteration < MAX_TOOL_ITERATIONS &&
!token.isCancellationRequested)` loop (participant.ts lines 178–249).
`fuel` is a structural bound; every caller passes `fuel ≥
MAX_TOOL_ITERATIONS - iter`, which makes the `fuel = 0` exit coincide with
the `iter < MAX_TOOL_ITERATIONS` guard failing, so the embedding is exact.
`cur` is the (not yet consumed) response of the previous `sendRequest`;
`nextReq` indexes the script round the next `sendRequest` returns. -/
def chatLoop (script : List (List Fragment))
    (execTool : String → String → Except String String)
    (cancelled : Nat → Bool) :
    Nat → Nat → List Fragment → Nat → List ChatMsg → LoopResult
  | 0, iter, _, _, msgs =>
      { messages := msgs, events := [], iterations := iter }
  | fuel + 1, iter, cur, nextReq, msgs =>
      if iter < MAX_TOOL_ITERATIONS ∧ cancelled iter = false then
        let iter' := iter + 1
        let texts := textEvents iter' cur
        let toolCalls := bufferedToolCalls cur
        if toolCalls.isEmpty then
          { messages := msgs, events := texts, iterations := iter' }
        else
          let r := execToolCalls execTool iter' toolCalls
          let msgs' :=
            if r.2.1.length > 0 then
              msgs ++ [ChatMsg.assistantToolCalls r.2.1,
                       ChatMsg.userToolResults r.2.2]
            else msgs
          let rest := chatLoop script execTool cancelled fuel iter'
            (script.getD nextReq []) (nextReq + 1) msgs'
          { messages := rest.messages
            events := texts ++ r.1 ++
              [(iter', LoopEvent.modelRequest msgs')] ++ rest.events
            iterations := rest.iterations }
      else
        { messages := msgs, events := [], iterations := iter }

/-- `handleChatRequest` from the initial `model.sendRequest` on
(participant.ts lines 170–254): the pre-loop model call, the tool loop,
and the trailing max-iterations notice. -/
def handleChatRequest (script : List (List Fragment))
    (execTool : String → String → Except String String)
    (cancelled : Nat → Bool) (initialMessages : List ChatMsg) : LoopResult :=
  let r := chatLoop script execTool cancelled MAX_TOOL_ITERATIONS 0
    (script.getD 0 []) 1 initialMessages
  let r1 : LoopResult :=
    { r with
        events := (0, LoopEvent.modelRequest initialMessages) :: r.events }
  if r1.iterations ≥ MAX_TOOL_ITERATIONS then
    { r1 with
        events := r1.events ++
          [(r1.iterations, LoopEvent.markdown
            "\n\n_Note: Reached maximum tool calling iterations._")] }
  else r1

/-- `true` when every `assistantToolCalls` turn is immediately followed by
a `userToolResults` turn whose call ids are exactly those of the tool-call
turn (in order), and every `userToolResults` turn is attached to such a
tool-call turn. -/
def transcriptPaired : List ChatMsg → Bool
  | [] => true
  | ChatMsg.assistantToolCalls calls ::
      ChatMsg.userToolResults results :: rest =>
      (results.map Prod.fst == calls.map (fun c => c.1)) &&
        transcriptPaired rest
  | ChatMsg.assistantToolCalls _ :: _ => false
  | ChatMsg.userToolResults _ :: _ => false
  | _ :: rest => transcriptPaired rest

theorem mem_textEvents_of_text (iter : Nat) (cur : List Fragment)
    (s : String) (h : Fragment.text s ∈ cur) :
    (iter, LoopEvent.markdown s) ∈ textEvents iter cur := by
  induction cur with
  | nil => simp at h
  | cons f rest ih =>
      cases f with
      | text t =>
          rcases List.mem_cons.mp h with he | hm
          · injection he with h1
            subst h1
            rw [textEvents]
            exact List.mem_cons_self _ _
          · rw [textEvents]
            exact List.mem_cons_of_mem _ (ih hm)
      | toolCall c n i =>
          rcases List.mem_cons.mp h with he | hm
          · exact absurd he (by simp)
          · rw [textEvents]
            exact ih hm

theorem mem_textEvents_elim {iter t : Nat} {ev : LoopEvent}
    {cur : List Fragment} (h : (t, ev) ∈ textEvents iter cur) :
    t = iter ∧ ∃ s, ev = LoopEvent.markdown s := by
  induction cur with
  | nil => simp [textEvents] at h
  | cons f rest ih =>
      cases f with
      | text s =>
          rw [textEvents] at h
          rcases List.mem_cons.mp h with he | hm
          · simp only [Prod.mk.injEq] at he
            exact ⟨he.1, s, he.2⟩
          · exact ih hm
      | toolCall c n i =>
          rw [textEvents] at h
          exact ih h

theorem execToolCalls_calls
    (execTool : String → String → Except String String) (iter : Nat)
    (calls : List ToolCallPart) :
    (execToolCalls execTool iter calls).2.1 = calls := by
  induction calls with
  | nil => rfl
  | cons c rest ih =>
      obtain ⟨cid, name, input⟩ := c
      simp only [execToolCalls]
      cases hx : execTool name input <;> simp [hx, ih]

theorem execToolCalls_resultIds
    (execTool : String → String → Except String String) (iter : Nat)
    (calls : List ToolCallPart) :
    (execToolCalls execTool iter calls).2.2.map Prod.fst =
      calls.map (fun c => c.1) := by
  induction calls with
  | nil => rfl
  | cons c rest ih =>
      obtain ⟨cid, name, input⟩ := c
      simp only [execToolCalls]
      cases hx : execTool name input <;> simp [hx, ih]

theorem execToolCalls_events_elim
    {execTool : String → String → Except String String} {iter t : Nat}
    {ev : LoopEvent} {calls : List ToolCallPart}
    (h : (t, ev) ∈ (execToolCalls execTool iter calls).1) :
    t = iter := by
  induction calls with
  | nil => simp [execToolCalls] at h
  | cons c rest ih =>
      obtain ⟨cid, name, input⟩ := c
      simp only [execToolCalls] at h
      cases hx : execTool name input <;> rw [hx] at h <;>
        simp only [List.mem_cons, Prod.mk.injEq] at h
      · rcases h with ⟨h1, _⟩ | ⟨h1, _⟩ | ⟨h1, _⟩ | hm
        · exact h1
        · exact h1
        · exact h1
        · exact ih hm
      · rcases h with ⟨h1, _⟩ | ⟨h1, _⟩ | hm
        · exact h1
        · exact h1
        · exact ih hm

theorem execToolCalls_inv_elim
    {execTool : String → String → Except String String} {iter t : Nat}
    {cid name input : String} {calls : List ToolCallPart}
    (h : (t, LoopEvent.toolInvocation cid name input) ∈
      (execToolCalls execTool iter calls).1) :
    t = iter ∧ (cid, name, input) ∈ calls := by
  induction calls with
  | nil => simp [execToolCalls] at h
  | cons c rest ih =>
      obtain ⟨c1, n1, i1⟩ := c
      simp only [execToolCalls] at h
      cases hx : execTool n1 i1 <;> rw [hx] at h <;>
        simp only [List.mem_cons, Prod.mk.injEq] at h
      · rcases h with ⟨h1, h2⟩ | ⟨h1, h2⟩ | ⟨h1, h2⟩ | hm
        · exact absurd h2 (by simp)
        · injection h2 with e1 e2 e3
          exact ⟨h1, by simp [e1, e2, e3]⟩
        · exact absurd h2 (by simp)
        · obtain ⟨ht, hmem⟩ := ih hm
          exact ⟨ht, List.mem_cons_of_mem _ hmem⟩
      · rcases h with ⟨h1, h2⟩ | ⟨h1, h2⟩ | hm
        · exact absurd h2 (by simp)
        · injection h2 with e1 e2 e3
          exact ⟨h1, by simp [e1, e2, e3]⟩
        · obtain ⟨ht, hmem⟩ := ih hm
          exact ⟨ht, List.mem_cons_of_mem _ hmem⟩

theorem execToolCalls_fail_mem
    {execTool : String → String → Except String String} {iter : Nat}
    {cid name input e : String} {calls : List ToolCallPart}
    (hc : (cid, name, input) ∈ calls)
    (he : execTool name input = Except.error e) :
    (iter, LoopEvent.markdown (toolFailNote name e)) ∈
      (execToolCalls execTool iter calls).1 ∧
    (cid, toolFailText name e) ∈ (execToolCalls execTool iter calls).2.2 := by
  induction calls with
  | nil => simp at hc
  | cons c rest ih =>
      obtain ⟨c1, n1, i1⟩ := c
      rcases List.mem_cons.mp hc with hhead | htail
      · injection hhead with e1 etl
        injection etl with e2 e3
        subst e1; subst e2; subst e3
        simp only [execToolCalls]
        rw [he]
        refine ⟨?_, ?_⟩
        · exact List.mem_cons_of_mem _ (List.mem_cons_of_mem _
            (List.mem_cons_self _ _))
        · exact List.mem_cons_self _ _
      · obtain ⟨h1, h2⟩ := ih htail
        simp only [execToolCalls]
        cases hx : execTool n1 i1 <;>
          exact ⟨by simp [h1], by simp [h2]⟩

theorem chatLoop_messages_mono (script : List (List Fragment))
    (execTool : String → String → Except String String)
    (cancelled : Nat → Bool) :
    ∀ (fuel iter : Nat) (cur : List Fragment) (nextReq : Nat)
      (msgs : List ChatMsg), ∃ t,
      (chatLoop script execTool cancelled fuel iter cur nextReq
        msgs).messages = msgs ++ t := by
  intro fuel
  induction fuel with
  | zero =>
      intro iter cur nextReq msgs
      exact ⟨[], by simp [chatLoop]⟩
  | succ fuel ih =>
      intro iter cur nextReq msgs
      by_cases hg : iter < MAX_TOOL_ITERATIONS ∧ cancelled iter = false
      · rw [chatLoop, if_pos hg]
        by_cases hempty : (bufferedToolCalls cur).isEmpty
        · simp only [hempty, if_true]
          exact ⟨[], by simp⟩
        · simp only [hempty, if_false, Bool.false_eq_true]
          by_cases hlen : (execToolCalls execTool (iter + 1)
              (bufferedToolCalls cur)).2.1.length > 0
          · simp only [hlen, if_true]
            obtain ⟨t, ht⟩ := ih (iter + 1) (script.getD nextReq [])
              (nextReq + 1)
              (msgs ++ [ChatMsg.assistantToolCalls (execToolCalls execTool
                  (iter + 1) (bufferedToolCalls cur)).2.1,
                ChatMsg.userToolResults (execToolCalls execTool (iter + 1)
                  (bufferedToolCalls cur)).2.2])
            exact ⟨_, by rw [ht, List.append_assoc]⟩
          · simp only [hlen, if_false]
            exact ih (iter + 1) (script.getD nextReq []) (nextReq + 1) msgs
      · rw [chatLoop, if_neg hg]
        exact ⟨[], by simp⟩

theorem transcriptPaired_cons2 (calls : List ToolCallPart)
    (results : List (String × String)) (rest : List ChatMsg) :
    transcriptPaired (ChatMsg.assistantToolCalls calls ::
        ChatMsg.userToolResults results :: rest) =
      ((results.map Prod.fst == calls.map (fun c => c.1)) &&
        transcriptPaired rest) := rfl

theorem transcriptPaired_cons_userText (s : String) (rest : List ChatMsg) :
    transcriptPaired (ChatMsg.userText s :: rest) =
      transcriptPaired rest := rfl

theorem transcriptPaired_cons_assistantText (s : String)
    (rest : List ChatMsg) :
    transcriptPaired (ChatMsg.assistantText s :: rest) =
      transcriptPaired rest := rfl

/-- Concatenating two paired transcripts yields a paired transcript. -/
theorem transcriptPaired_append (msgs B : List ChatMsg)
    (hm : transcriptPaired msgs = true) (hB : transcriptPaired B = true) :
    transcriptPaired (msgs ++ B) = true := by
  induction msgs using transcriptPaired.induct with
  | case1 => simpa using hB
  | case2 calls results rest ih =>
      rw [List.cons_append, List.cons_append, transcriptPaired_cons2]
      rw [transcriptPaired_cons2] at hm
      simp only [Bool.and_eq_true] at hm ⊢
      exact ⟨hm.1, ih hm.2⟩
  | case3 x xs h1 =>
      cases xs with
      | nil => exact Bool.noConfusion (show (false : Bool) = true from hm)
      | cons y ys =>
          cases y with
          | userToolResults r => exact (h1 r ys rfl).elim
          | userText s =>
              exact Bool.noConfusion (show (false : Bool) = true from hm)
          | assistantText s =>
              exact Bool.noConfusion (show (false : Bool) = true from hm)
          | assistantToolCalls c2 =>
              exact Bool.noConfusion (show (false : Bool) = true from hm)
  | case4 x xs =>
      exact Bool.noConfusion (show (false : Bool) = true from hm)
  | case5 x rest h1 h2 h3 ih =>
      cases x with
      | userText s =>
          rw [List.cons_append, transcriptPaired_cons_userText] at *
          exact ih hm
      | assistantText s =>
          rw [List.cons_append, transcriptPaired_cons_assistantText] at *
          exact ih hm
      | assistantToolCalls calls => exact (h2 calls rfl).elim
      | userToolResults results => exact (h3 results rfl).elim

theorem execToolCalls_no_modelRequest
    {execTool : String → String → Except String String} {iter t : Nat}
    {sent : List ChatMsg} {calls : List ToolCallPart}
    (h : (t, LoopEvent.modelRequest sent) ∈
      (execToolCalls execTool iter calls).1) : False := by
  induction calls with
  | nil => simp [execToolCalls] at h
  | cons c rest ih =>
      obtain ⟨cid, name, input⟩ := c
      simp only [execToolCalls] at h
      cases hx : execTool name input <;> rw [hx] at h <;>
        simp only [List.mem_cons, Prod.mk.injEq] at h
      · rcases h with ⟨_, h2⟩ | ⟨_, h2⟩ | ⟨_, h2⟩ | hm
        · exact absurd h2 (by simp)
        · exact absurd h2 (by simp)
        · exact absurd h2 (by simp)
        · exact ih hm
      · rcases h with ⟨_, h2⟩ | ⟨_, h2⟩ | hm
        · exact absurd h2 (by simp)
        · exact absurd h2 (by simp)
        · exact ih hm

theorem length_pos_of_not_isEmpty {α : Type} {l : List α}
    (h : l.isEmpty = false) : 0 < l.length := by
  cases l with
  | nil => simp [List.isEmpty] at h
  | cons x xs => simp

/-- The tool-result parts produced by the execution loop match the
tool-call parts id-for-id, so the appended block is paired. -/
theorem execToolCalls_block_paired
    (execTool : String → String → Except String String) (iter : Nat)
    (calls : List ToolCallPart) :
    transcriptPaired
      [ChatMsg.assistantToolCalls (execToolCalls execTool iter calls).2.1,
       ChatMsg.userToolResults (execToolCalls execTool iter calls).2.2] =
      true := by
  rw [transcriptPaired_cons2]
  simp only [Bool.and_eq_true]
  refine ⟨?_, rfl⟩
  rw [execToolCalls_resultIds, execToolCalls_calls]
  simp

/-- Pairing invariant of the tool loop: starting from a paired transcript,
the final transcript is paired and so is every transcript passed to
`model.sendRequest`. -/
theorem chatLoop_paired (script : List (List Fragment))
    (execTool : String → String → Except String String)
    (cancelled : Nat → Bool) :
    ∀ (fuel iter : Nat) (cur : List Fragment) (nextReq : Nat)
      (msgs : List ChatMsg), transcriptPaired msgs = true →
      transcriptPaired (chatLoop script execTool cancelled fuel iter cur
        nextReq msgs).messages = true ∧
      (∀ (i : Nat) (sent : List ChatMsg),
        (i, LoopEvent.modelRequest sent) ∈
          (chatLoop script execTool cancelled fuel iter cur nextReq
            msgs).events →
        transcriptPaired sent = true) := by
  intro fuel
  induction fuel with
  | zero =>
      intro iter cur nextReq msgs hp
      refine ⟨by simpa [chatLoop] using hp, ?_⟩
      intro i sent h
      simp [chatLoop] at h
  | succ fuel ih =>
      intro iter cur nextReq msgs hp
      by_cases hg : iter < MAX_TOOL_ITERATIONS ∧ cancelled iter = false
      · by_cases hempty : (bufferedToolCalls cur).isEmpty
        · rw [chatLoop, if_pos hg]
          simp only [hempty, if_true]
          refine ⟨by simpa using hp, ?_⟩
          intro i sent h
          obtain ⟨_, s, hs⟩ := mem_textEvents_elim h
          exact absurd hs (by simp)
        · rw [Bool.not_eq_true] at hempty
          rw [chatLoop, if_pos hg]
          simp only [hempty, Bool.false_eq_true, if_false]
          have hlen : 0 < (execToolCalls execTool (iter + 1)
              (bufferedToolCalls cur)).2.1.length := by
            rw [execToolCalls_calls]
            exact length_pos_of_not_isEmpty hempty
          simp only [gt_iff_lt, hlen, if_true]
          have hp' : transcriptPaired
              (msgs ++ [ChatMsg.assistantToolCalls (execToolCalls execTool
                  (iter + 1) (bufferedToolCalls cur)).2.1,
                ChatMsg.userToolResults (execToolCalls execTool (iter + 1)
                  (bufferedToolCalls cur)).2.2]) = true :=
            transcriptPaired_append _ _ hp
              (execToolCalls_block_paired execTool (iter + 1)
                (bufferedToolCalls cur))
          obtain ⟨ihm, ihe⟩ := ih (iter + 1) (script.getD nextReq [])
            (nextReq + 1) _ hp'
          refine ⟨by simpa using ihm, ?_⟩
          intro i sent h
          simp only [List.append_assoc, List.mem_append] at h
          rcases h with htext | hexec | hc | hrest
          · obtain ⟨_, s, hs⟩ := mem_textEvents_elim htext
            exact absurd hs (by simp)
          · exact absurd hexec (fun hh => execToolCalls_no_modelRequest hh)
          · have hctr := List.mem_singleton.mp hc
            have h5 : LoopEvent.modelRequest sent =
                LoopEvent.modelRequest (msgs ++
                  [ChatMsg.assistantToolCalls (execToolCalls execTool
                      (iter + 1) (bufferedToolCalls cur)).2.1,
                    ChatMsg.userToolResults (execToolCalls execTool
                      (iter + 1) (bufferedToolCalls cur)).2.2]) :=
              congrArg Prod.snd hctr
            injection h5 with hsent
            rw [hsent]
            exact hp'
          · exact ihe i sent hrest
      · rw [chatLoop, if_neg hg]
        refine ⟨by simpa using hp, ?_⟩
        intro i sent h
        simp at h

/-- Every event of the tool loop is tagged with an iteration whose
top-of-loop guard passed: its tag `t` exceeds the starting counter, stays
within the iteration bound, and the cancellation token read `t - 1` was
false. -/
theorem chatLoop_events_tag (script : List (List Fragment))
    (execTool : String → String → Except String String)
    (cancelled : Nat → Bool) :
    ∀ (fuel iter : Nat) (cur : List Fragment) (nextReq : Nat)
      (msgs : List ChatMsg) (t : Nat) (ev : LoopEvent),
      (t, ev) ∈ (chatLoop script execTool cancelled fuel iter cur nextReq
        msgs).events →
      iter < t ∧ t ≤ MAX_TOOL_ITERATIONS ∧ cancelled (t - 1) = false := by
  intro fuel
  induction fuel with
  | zero =>
      intro iter cur nextReq msgs t ev h
      simp [chatLoop] at h
  | succ fuel ih =>
      intro iter cur nextReq msgs t ev h
      by_cases hg : iter < MAX_TOOL_ITERATIONS ∧ cancelled iter = false
      · by_cases hempty : (bufferedToolCalls cur).isEmpty
        · rw [chatLoop, if_pos hg] at h
          simp only [hempty, if_true] at h
          obtain ⟨ht, _⟩ := mem_textEvents_elim h
          subst ht
          exact ⟨Nat.lt_succ_self _, hg.1, by simpa using hg.2⟩
        · rw [Bool.not_eq_true] at hempty
          rw [chatLoop, if_pos hg] at h
          simp only [hempty, Bool.false_eq_true, if_false] at h
          have hlen : 0 < (execToolCalls execTool (iter + 1)
              (bufferedToolCalls cur)).2.1.length := by
            rw [execToolCalls_calls]
            exact length_pos_of_not_isEmpty hempty
          simp only [gt_iff_lt, hlen, if_true, List.append_assoc,
            List.mem_append] at h
          rcases h with htext | hexec | hc | hrest
          · obtain ⟨ht, _⟩ := mem_textEvents_elim htext
            subst ht
            exact ⟨Nat.lt_succ_self _, hg.1, by simpa using hg.2⟩
          · have ht := execToolCalls_events_elim hexec
            subst ht
            exact ⟨Nat.lt_succ_self _, hg.1, by simpa using hg.2⟩
          · have hctr := List.mem_singleton.mp hc
            have ht : t = iter + 1 := congrArg Prod.fst hctr
            subst ht
            exact ⟨Nat.lt_succ_self _, hg.1, by simpa using hg.2⟩
          · obtain ⟨h1, h2, h3⟩ := ih (iter + 1) (script.getD nextReq [])
              (nextReq + 1) _ t ev hrest
            exact ⟨Nat.lt_of_succ_lt h1, h2, h3⟩
      · rw [chatLoop, if_neg hg] at h
        simp at h

/-- The final value of the iteration counter: unchanged, or the result of
at least one executed body, in which case its last guard passed. -/
theorem chatLoop_iterations (script : List (List Fragment))
    (execTool : String → String → Except String String)
    (cancelled : Nat → Bool) :
    ∀ (fuel iter : Nat) (cur : List Fragment) (nextReq : Nat)
      (msgs : List ChatMsg),
      (chatLoop script execTool cancelled fuel iter cur nextReq
        msgs).iterations = iter ∨
      (iter < (chatLoop script execTool cancelled fuel iter cur nextReq
          msgs).iterations ∧
        (chatLoop script execTool cancelled fuel iter cur nextReq
          msgs).iterations ≤ MAX_TOOL_ITERATIONS ∧
        cancelled ((chatLoop script execTool cancelled fuel iter cur nextReq
          msgs).iterations - 1) = false) := by
  intro fuel
  induction fuel with
  | zero =>
      intro iter cur nextReq msgs
      left
      simp [chatLoop]
  | succ fuel ih =>
      intro iter cur nextReq msgs
      by_cases hg : iter < MAX_TOOL_ITERATIONS ∧ cancelled iter = false
      · by_cases hempty : (bufferedToolCalls cur).isEmpty
        · rw [chatLoop, if_pos hg]
          simp only [hempty, if_true]
          right
          exact ⟨Nat.lt_succ_self _, hg.1, by simpa using hg.2⟩
        · rw [Bool.not_eq_true] at hempty
          rw [chatLoop, if_pos hg]
          simp only [hempty, Bool.false_eq_true, if_false]
          have hlen : 0 < (execToolCalls execTool (iter + 1)
              (bufferedToolCalls cur)).2.1.length := by
            rw [execToolCalls_calls]
            exact length_pos_of_not_isEmpty hempty
          simp only [gt_iff_lt, hlen, if_true]
          rcases ih (iter + 1) (script.getD nextReq []) (nextReq + 1)
            (msgs ++ [ChatMsg.assistantToolCalls (execToolCalls execTool
                (iter + 1) (bufferedToolCalls cur)).2.1,
              ChatMsg.userToolResults (execToolCalls execTool (iter + 1)
                (bufferedToolCalls cur)).2.2]) with heq | ⟨h1, h2, h3⟩
          · right
            rw [heq]
            exact ⟨Nat.lt_succ_self _, hg.1, by simpa using hg.2⟩
          · right
            exact ⟨Nat.lt_of_succ_lt h1, h2, h3⟩
      · rw [chatLoop, if_neg hg]
        left
        rfl

/-- Failure recovery invariant of the tool loop: every recorded tool
invocation whose execution throws leaves the inline error note in the
stream, a synthesized tool-result part carrying the failure text in the
final transcript, and a model request in the same iteration (the loop
continues instead of aborting). -/
theorem chatLoop_toolFailure (script : List (List Fragment))
    (execTool : String → String → Except String String)
    (cancelled : Nat → Bool) :
    ∀ (fuel iter : Nat) (cur : List Fragment) (nextReq : Nat)
      (msgs : List ChatMsg) (i : Nat) (cid name input e : String),
      (i, LoopEvent.toolInvocation cid name input) ∈
        (chatLoop script execTool cancelled fuel iter cur nextReq
          msgs).events →
      execTool name input = Except.error e →
      (i, LoopEvent.markdown (toolFailNote name e)) ∈
        (chatLoop script execTool cancelled fuel iter cur nextReq
          msgs).events ∧
      (∃ rs, ChatMsg.userToolResults rs ∈
          (chatLoop script execTool cancelled fuel iter cur nextReq
            msgs).messages ∧
        (cid, toolFailText name e) ∈ rs) ∧
      (∃ sent, (i, LoopEvent.modelRequest sent) ∈
        (chatLoop script execTool cancelled fuel iter cur nextReq
          msgs).events) := by
  intro fuel
  induction fuel with
  | zero =>
      intro iter cur nextReq msgs i cid name input e h _
      simp [chatLoop] at h
  | succ fuel ih =>
      intro iter cur nextReq msgs i cid name input e h herr
      by_cases hg : iter < MAX_TOOL_ITERATIONS ∧ cancelled iter = false
      · by_cases hempty : (bufferedToolCalls cur).isEmpty
        · rw [chatLoop, if_pos hg] at h
          simp only [hempty, if_true] at h
          obtain ⟨_, s, hs⟩ := mem_textEvents_elim h
          exact absurd hs (by simp)
        · rw [Bool.not_eq_true] at hempty
          rw [chatLoop, if_pos hg] at h ⊢
          simp only [hempty, Bool.false_eq_true, if_false] at h ⊢
          have hlen : 0 < (execToolCalls execTool (iter + 1)
              (bufferedToolCalls cur)).2.1.length := by
            rw [execToolCalls_calls]
            exact length_pos_of_not_isEmpty hempty
          simp only [gt_iff_lt, hlen, if_true, List.append_assoc,
            List.mem_append] at h ⊢
          rcases h with htext | hexec | hc | hrest
          · obtain ⟨_, s, hs⟩ := mem_textEvents_elim htext
            exact absurd hs (by simp)
          · obtain ⟨hi, hmem⟩ := execToolCalls_inv_elim hexec
            subst hi
            obtain ⟨hmd, hres⟩ := execToolCalls_fail_mem hmem herr
            refine ⟨Or.inr (Or.inl hmd), ?_, ?_⟩
            · obtain ⟨t, ht⟩ := chatLoop_messages_mono script execTool
                cancelled fuel (iter + 1) (script.getD nextReq [])
                (nextReq + 1)
                (msgs ++ [ChatMsg.assistantToolCalls (execToolCalls execTool
                    (iter + 1) (bufferedToolCalls cur)).2.1,
                  ChatMsg.userToolResults (execToolCalls execTool (iter + 1)
                    (bufferedToolCalls cur)).2.2])
              refine ⟨(execToolCalls execTool (iter + 1)
                (bufferedToolCalls cur)).2.2, ?_, hres⟩
              rw [ht]
              apply List.mem_append_left
              apply List.mem_append_right
              simp
            · refine ⟨msgs ++ [ChatMsg.assistantToolCalls (execToolCalls
                  execTool (iter + 1) (bufferedToolCalls cur)).2.1,
                ChatMsg.userToolResults (execToolCalls execTool (iter + 1)
                  (bufferedToolCalls cur)).2.2], ?_⟩
              exact Or.inr (Or.inr (Or.inl (List.mem_singleton.mpr rfl)))
          · have hctr := List.mem_singleton.mp hc
            have hcc : LoopEvent.toolInvocation cid name input =
                LoopEvent.modelRequest (msgs ++
                  [ChatMsg.assistantToolCalls (execToolCalls execTool
                      (iter + 1) (bufferedToolCalls cur)).2.1,
                    ChatMsg.userToolResults (execToolCalls execTool
                      (iter + 1) (bufferedToolCalls cur)).2.2]) :=
              congrArg Prod.snd hctr
            exact absurd hcc (by simp)
          · obtain ⟨hmd, hres, sent, hmr⟩ := ih (iter + 1)
              (script.getD nextReq []) (nextReq + 1)
              (msgs ++ [ChatMsg.assistantToolCalls (execToolCalls execTool
                  (iter + 1) (bufferedToolCalls cur)).2.1,
                ChatMsg.userToolResults (execToolCalls execTool (iter + 1)
                  (bufferedToolCalls cur)).2.2])
              i cid name input e hrest herr
            exact ⟨Or.inr (Or.inr (Or.inr hmd)), hres,
              sent, Or.inr (Or.inr (Or.inr hmr))⟩
      · rw [chatLoop, if_neg hg] at h
        simp at h

theorem handleChatRequest_messages (script : List (List Fragment))
    (execTool : String → String → Except String String)
    (cancelled : Nat → Bool) (init : List ChatMsg) :
    (handleChatRequest script execTool cancelled init).messages =
      (chatLoop script execTool cancelled MAX_TOOL_ITERATIONS 0
        (script.getD 0 []) 1 init).messages := by
  simp only [handleChatRequest]
  split <;> rfl

theorem handleChatRequest_mem_events (script : List (List Fragment))
    (execTool : String → String → Except String String)
    (cancelled : Nat → Bool) (init : List ChatMsg) (p : Nat × LoopEvent)
    (hp : p ∈ (chatLoop script execTool cancelled MAX_TOOL_ITERATIONS 0
      (script.getD 0 []) 1 init).events) :
    p ∈ (handleChatRequest script execTool cancelled init).events := by
  simp only [handleChatRequest]
  split
  · exact List.mem_cons_of_mem _ (List.mem_append_left _ hp)
  · exact List.mem_cons_of_mem _ hp

theorem handleChatRequest_events_elim (script : List (List Fragment))
    (execTool : String → String → Except String String)
    (cancelled : Nat → Bool) (init : List ChatMsg) (p : Nat × LoopEvent)
    (hp : p ∈ (handleChatRequest script execTool cancelled init).events) :
    p = (0, LoopEvent.modelRequest init) ∨
    p ∈ (chatLoop script execTool cancelled MAX_TOOL_ITERATIONS 0
      (script.getD 0 []) 1 init).events ∨
    (p = ((chatLoop script execTool cancelled MAX_TOOL_ITERATIONS 0
        (script.getD 0 []) 1 init).iterations,
      LoopEvent.markdown
        "\n\n_Note: Reached maximum tool calling iterations._") ∧
      MAX_TOOL_ITERATIONS ≤ (chatLoop script execTool cancelled
        MAX_TOOL_ITERATIONS 0 (script.getD 0 []) 1 init).iterations) := by
  simp only [handleChatRequest] at hp
  split at hp
  · rename_i hc
    rcases List.mem_cons.mp hp with h0 | h1
    · exact Or.inl h0
    rcases List.mem_append.mp h1 with h2 | h3
    · exact Or.inr (Or.inl h2)
    · exact Or.inr (Or.inr ⟨List.mem_singleton.mp h3, hc⟩)
  · rcases List.mem_cons.mp hp with h0 | h1
    · exact Or.inl h0
    · exact Or.inr (Or.inl h1)

/-! ### Claims C2, C3, C4 -/

/-- **C2.**  Whenever a recorded tool invocation of the conversation loop
throws, the loop streams the short inline error note, appends a tool-result
part for that call id whose payload is the failure text to the transcript,
and then performs a subsequent model request (same iteration) instead of
aborting the turn. -/
theorem c2_theorem (script : List (List Fragment))
    (execTool : String → String → Except String String)
    (cancelled : Nat → Bool) (init : List ChatMsg) (i : Nat)
    (cid name input e : String)
    (hev : (i, LoopEvent.toolInvocation cid name input) ∈
      (handleChatRequest script execTool cancelled init).events)
    (herr : execTool name input = Except.error e) :
    (i, LoopEvent.markdown (toolFailNote name e)) ∈
      (handleChatRequest script execTool cancelled init).events ∧
    (∃ rs, ChatMsg.userToolResults rs ∈
        (handleChatRequest script execTool cancelled init).messages ∧
      (cid, toolFailText name e) ∈ rs) ∧
    (∃ sent, (i, LoopEvent.modelRequest sent) ∈
      (handleChatRequest script execTool cancelled init).events) := by
  rcases handleChatRequest_events_elim script execTool cancelled init _ hev
    with hini | hloop | ⟨hnote, _⟩
  · have hcc : LoopEvent.toolInvocation cid name input =
        LoopEvent.modelRequest init := congrArg Prod.snd hini
    exact absurd hcc (by simp)
  · obtain ⟨hmd, hres, sent, hmr⟩ := chatLoop_toolFailure script execTool
      cancelled MAX_TOOL_ITERATIONS 0 (script.getD 0 []) 1 init
      i cid name input e hloop herr
    refine ⟨handleChatRequest_mem_events script execTool cancelled init _
        hmd, ?_, sent,
      handleChatRequest_mem_events script execTool cancelled init _ hmr⟩
    rw [handleChatRequest_messages]
    exact hres
  · have hcc : LoopEvent.toolInvocation cid name input =
        LoopEvent.markdown
          "\n\n_Note: Reached maximum tool calling iterations._" :=
      congrArg Prod.snd hnote
    exact absurd hcc (by simp)

/-- **C3.**  Starting from a paired transcript (one with no dangling
tool-call turn), the final transcript of `handleChatRequest` is paired —
every `assistantToolCalls` turn is immediately followed by exactly one
`userToolResults` turn bearing the same call ids in order — and so is every
transcript handed to a model invocation, on success and failure paths
alike. -/
theorem c3_theorem (script : List (List Fragment))
    (execTool : String → String → Except String String)
    (cancelled : Nat → Bool) (init : List ChatMsg)
    (hinit : transcriptPaired init = true) :
    transcriptPaired
      (handleChatRequest script execTool cancelled init).messages = true ∧
    (∀ (i : Nat) (sent : List ChatMsg),
      (i, LoopEvent.modelRequest sent) ∈
        (handleChatRequest script execTool cancelled init).events →
      transcriptPaired sent = true) := by
  obtain ⟨h1, h2⟩ := chatLoop_paired script execTool cancelled
    MAX_TOOL_ITERATIONS 0 (script.getD 0 []) 1 init hinit
  refine ⟨by rw [handleChatRequest_messages]; exact h1, ?_⟩
  intro i sent h
  rcases handleChatRequest_events_elim script execTool cancelled init _ h
    with hini | hloop | ⟨hnote, _⟩
  · have hcc : LoopEvent.modelRequest sent = LoopEvent.modelRequest init :=
      congrArg Prod.snd hini
    injection hcc with hs
    rw [hs]
    exact hinit
  · exact h2 i sent hloop
  · have hcc : LoopEvent.modelRequest sent =
        LoopEvent.markdown
          "\n\n_Note: Reached maximum tool calling iterations._" :=
      congrArg Prod.snd hnote
    exact absurd hcc (by simp)

/-- First-iteration text preservation: when the first guard passes, every
text fragment of the pending response is streamed in iteration
`iter + 1`. -/
theorem chatLoop_round1_texts (script : List (List Fragment))
    (execTool : String → String → Except String String)
    (cancelled : Nat → Bool) (fuel iter : Nat) (cur : List Fragment)
    (nextReq : Nat) (msgs : List ChatMsg)
    (hg : iter < MAX_TOOL_ITERATIONS ∧ cancelled iter = false) (s : String)
    (hs : Fragment.text s ∈ cur) :
    (iter + 1, LoopEvent.markdown s) ∈
      (chatLoop script execTool cancelled (fuel + 1) iter cur nextReq
        msgs).events := by
  rw [chatLoop, if_pos hg]
  by_cases hempty : (bufferedToolCalls cur).isEmpty
  · simp only [hempty, if_true]
    exact mem_textEvents_of_text _ _ _ hs
  · rw [Bool.not_eq_true] at hempty
    simp only [hempty, Bool.false_eq_true, if_false]
    have hlen : 0 < (execToolCalls execTool (iter + 1)
        (bufferedToolCalls cur)).2.1.length := by
      rw [execToolCalls_calls]
      exact length_pos_of_not_isEmpty hempty
    simp only [gt_iff_lt, hlen, if_true, List.append_assoc,
      List.mem_append]
    exact Or.inl (mem_textEvents_of_text _ _ _ hs)

/-- **C4.**  The cancellation signal is read at the top of every iteration:
(1) every event after the pre-loop model request belongs to an iteration
whose guard read the signal as false (and was within the bound), so once
the signal is observed nothing further is streamed, invoked or requested;
(2) with a signal raised after round 1, every recorded event — text, tool
invocation or model request — belongs to iteration 1 at the latest; and
(3) the text fragments of round 1 are still streamed (previously streamed
text is preserved). -/
theorem c4_theorem (script : List (List Fragment))
    (execTool : String → String → Except String String)
    (cancelled : Nat → Bool) (init : List ChatMsg) :
    (∀ (t : Nat) (ev : LoopEvent),
      (t, ev) ∈ (handleChatRequest script execTool cancelled init).events →
      1 ≤ t →
      t - 1 < MAX_TOOL_ITERATIONS ∧ cancelled (t - 1) = false) ∧
    (∀ (t : Nat) (ev : LoopEvent),
      (t, ev) ∈ (handleChatRequest script execTool
        (fun k => decide (1 ≤ k)) init).events →
      t ≤ 1) ∧
    (∀ s, Fragment.text s ∈ script.getD 0 [] →
      (1, LoopEvent.markdown s) ∈
        (handleChatRequest script execTool
          (fun k => decide (1 ≤ k)) init).events) := by
  have hM : MAX_TOOL_ITERATIONS = 10 := rfl
  have key : ∀ (cancel : Nat → Bool) (t : Nat) (ev : LoopEvent),
      (t, ev) ∈ (handleChatRequest script execTool cancel init).events →
      1 ≤ t →
      t - 1 < MAX_TOOL_ITERATIONS ∧ cancel (t - 1) = false := by
    intro cancel t ev hmem ht
    rcases handleChatRequest_events_elim script execTool cancel init _ hmem
      with hini | hloop | ⟨hnote, hits⟩
    · have ht0 : t = 0 := congrArg Prod.fst hini
      omega
    · obtain ⟨h1, h2, h3⟩ := chatLoop_events_tag script execTool cancel
        MAX_TOOL_ITERATIONS 0 (script.getD 0 []) 1 init t ev hloop
      exact ⟨by omega, h3⟩
    · have ht' : t = (chatLoop script execTool cancel MAX_TOOL_ITERATIONS 0
          (script.getD 0 []) 1 init).iterations := congrArg Prod.fst hnote
      rcases chatLoop_iterations script execTool cancel MAX_TOOL_ITERATIONS
        0 (script.getD 0 []) 1 init with hz | ⟨h1, h2, h3⟩
      · rw [hz] at ht'
        omega
      · rw [← ht'] at h1 h2 h3
        exact ⟨by omega, h3⟩
  refine ⟨key cancelled, ?_, ?_⟩
  · intro t ev hmem
    by_cases ht : 1 ≤ t
    · obtain ⟨_, hc⟩ := key (fun k => decide (1 ≤ k)) t ev hmem ht
      simp only [decide_eq_false_iff_not] at hc
      omega
    · omega
  · intro s hs
    have hg : 0 < MAX_TOOL_ITERATIONS ∧
        (fun k => decide (1 ≤ k)) 0 = false := by
      refine ⟨by omega, by simp⟩
    have hmem : (1, LoopEvent.markdown s) ∈
        (chatLoop script execTool (fun k => decide (1 ≤ k))
          MAX_TOOL_ITERATIONS 0 (script.getD 0 []) 1 init).events := by
      have h9 := chatLoop_round1_texts script execTool
        (fun k => decide (1 ≤ k)) 9 0 (script.getD 0 []) 1 init hg s hs
      exact h9
    exact handleChatRequest_mem_events script execTool _ init _ hmem

/-- Script fixture: one model round streaming text then a tool call. -/
def sampleScript : List (List Fragment) :=
  [[Fragment.text "hello", Fragment.toolCall "c1" "toolA" "x"]]

/-- Tool-surface fixture that always throws. -/
def failExec : String → String → Except String String :=
  fun _ _ => Except.error "boom"

/-- A cancellation token that is never raised. -/
def noCancel : Nat → Bool := fun _ => false

/-- **C2, witness**: on the concrete failing run, the inline error note for
the thrown `toolA` call is streamed in the same iteration as the
invocation. -/
theorem c2_witness :
    ((1 : Nat), LoopEvent.markdown (toolFailNote "toolA" "boom")) ∈
      (handleChatRequest sampleScript failExec noCancel []).events :=
  (c2_theorem sampleScript failExec noCancel [] 1 "c1" "toolA" "x" "boom"
    (by decide) rfl).1

/-- **C3, witness**: the final transcript of the concrete failing run is
paired — its tool-call turn is immediately followed by the matching
tool-result turn. -/
theorem c3_witness :
    transcriptPaired
      (handleChatRequest sampleScript failExec noCancel []).messages =
      true :=
  (c3_theorem sampleScript failExec noCancel [] rfl).1

/-- **C4, witness**: the round-1 markdown event of the concrete run belongs
to an iteration whose top-of-loop guard passed. -/
theorem c4_witness :
    (1 : Nat) - 1 < MAX_TOOL_ITERATIONS ∧ noCancel (1 - 1) = false :=
  (c4_theorem sampleScript failExec noCancel []).1 1
    (LoopEvent.markdown "hello") (by decide) (by decide)

/-! ## Contextual suggestion engine (CodeLens)

Translated from `BCCodeLensProvider.provideCodeLenses` and
`isInsideComment` of `src/src/chat/participant.ts` (lines 449–541).  The
document is a list of lines whose text is their newline join; a compiled
`RegExp` with the `g` flag is modelled by the increasing list of match
start offsets its repeated `exec` calls yield on a given text. -/

/-- A CodeLens mapping (pattern compiled to its match-offset function). -/
structure CodeLensMapping where
  pattern : String → List Nat
  specialist : String
  label : String
  specialistEmoji : Option String

/-- The data of an emitted CodeLens: the anchored line and the command
title and target specialist. -/
structure CodeLens where
  line : Nat
  title : String
  specialist : String
  deriving DecidableEq, Repr

/-- `TextDocument.positionAt`: character offset into the newline-joined
document → (line, character). -/
def positionAt : List String → Nat → Nat × Nat
  | [], off => (0, off)
  | [_], off => (0, off)
  | l :: rest, off =>
      if off ≤ l.length then (0, off)
      else
        let p := positionAt rest (off - l.length - 1)
        (p.1 + 1, p.2)

/-- Auxiliary scan for `idxOf`. -/
def idxOfAux (sub : List Char) : List Char → Nat → Option Nat
  | [], i => if charsPrefix sub [] then some i else none
  | hay@(_ :: t), i =>
      if charsPrefix sub hay then some i else idxOfAux sub t (i + 1)

/-- JS `s.indexOf(sub)` (`none` = `-1`). -/
def idxOf (s sub : String) : Option Nat :=
  idxOfAux sub.toList s.toList 0

/-- `BCCodeLensProvider.isInsideComment` (participant.ts lines 522–541),
including its simplified block-comment test: after a `/*`, a position only
counts as commented when the line's first `*/` is absent or lies strictly
before it. -/
def isInsideComment (lineText : String) (charIndex : Nat) : Bool :=
  let singleLineComment := idxOf lineText "//"
  if (match singleLineComment with
      | some i => decide (charIndex > i)
      | none => false) then true
  else
    let blockCommentStart := idxOf lineText "/*"
    let blockCommentEnd := idxOf lineText "*/"
    match blockCommentStart with
    | some i =>
        if charIndex > i then
          match blockCommentEnd with
          | none => true
          | some j => decide (j < charIndex)
        else false
    | none => false

/-- The inner `while ((match = regex.exec(text)) !== null)` loop of
`provideCodeLenses` over one mapping's match offsets: returns the grown
lens list, the used-line set, and whether the per-document cap triggered
the early `return` (participant.ts lines 478–513). -/
def processMatches (docLines : List String) (mapping : CodeLensMapping)
    (maxPerFile : Nat) :
    List Nat → List CodeLens → List Nat → List CodeLens × List Nat × Bool
  | [], lenses, lensLines => (lenses, lensLines, false)
  | off :: rest, lenses, lensLines =>
      let line := (positionAt docLines off).1
      let ch := (positionAt docLines off).2
      if line ∈ lensLines then
        processMatches docLines mapping maxPerFile rest lenses lensLines
      else
        let lineText := docLines.getD line ""
        if isInsideComment lineText ch then
          processMatches docLines mapping maxPerFile rest lenses lensLines
        else
          let lenses' := lenses ++
            [{ line := line
               title := (mapping.specialistEmoji.getD "💡") ++ " " ++
                 mapping.label
               specialist := mapping.specialist }]
          let lensLines' := line :: lensLines
          if maxPerFile > 0 ∧ lenses'.length ≥ maxPerFile then
            (lenses', lensLines', true)
          else
            processMatches docLines mapping maxPerFile rest lenses'
              lensLines'

/-- The outer `for (const mapping of this.mappings)` loop of
`provideCodeLenses` (participant.ts lines 471–514). -/
def provideLenses (docLines : List String) (maxPerFile : Nat) :
    List CodeLensMapping → List CodeLens → List Nat → List CodeLens
  | [], lenses, _ => lenses
  | mapping :: rest, lenses, lensLines =>
      let r := processMatches docLines mapping maxPerFile
        (mapping.pattern (String.intercalate "\n" docLines)) lenses
        lensLines
      if r.2.2 then r.1
      else provideLenses docLines maxPerFile rest r.1 r.2.1

/-- `BCCodeLensProvider.provideCodeLenses` (participant.ts lines 449–517)
for an AL document with CodeLens enabled, as a function of the mapping
list, the `codeLens.maxPerFile` setting and the document lines. -/
def provideCodeLenses (mappings : List CodeLensMapping) (maxPerFile : Nat)
    (docLines : List String) : List CodeLens :=
  provideLenses docLines maxPerFile mappings [] []

/-- All start offsets of non-overlapping occurrences of `sub`, scanning
left to right: the match-offset list of the regex that literally matches
`sub` with the `g` flag.  `skip` counts positions still covered by the
previous match. -/
def occAux (sub : List Char) : List Char → Nat → Nat → List Nat
  | [], _, _ => []
  | hay@(_ :: t), i, skip =>
      match skip with
      | k + 1 => occAux sub t (i + 1) k
      | 0 =>
          if charsPrefix sub hay then
            i :: occAux sub t (i + 1) (sub.length - 1)
          else occAux sub t (i + 1) 0

/-- Concrete compiled pattern: literal-substring matcher. -/
def subOccurrences (sub text : String) : List Nat :=
  occAux sub.toList text.toList 0 0

/-- One-per-line invariant of the match loop: every emitted lens line is in
the used-line set, the lens lines stay pairwise distinct, and the used-line
set only grows. -/
theorem processMatches_inv (docLines : List String)
    (mapping : CodeLensMapping) (maxPerFile : Nat) :
    ∀ (offs : List Nat) (lenses : List CodeLens) (lensLines : List Nat),
      (∀ l ∈ lenses, l.line ∈ lensLines) →
      (lenses.map (fun l => l.line)).Nodup →
      (∀ l ∈ (processMatches docLines mapping maxPerFile offs lenses
          lensLines).1,
        l.line ∈ (processMatches docLines mapping maxPerFile offs lenses
          lensLines).2.1) ∧
      ((processMatches docLines mapping maxPerFile offs lenses
        lensLines).1.map (fun l => l.line)).Nodup ∧
      (∀ x ∈ lensLines, x ∈ (processMatches docLines mapping maxPerFile
        offs lenses lensLines).2.1) := by
  intro offs
  induction offs with
  | nil =>
      intro lenses lensLines hmem hnd
      exact ⟨hmem, hnd, fun x hx => hx⟩
  | cons off rest ih =>
      intro lenses lensLines hmem hnd
      rw [processMatches]
      by_cases hused : (positionAt docLines off).1 ∈ lensLines
      · rw [if_pos hused]
        exact ih lenses lensLines hmem hnd
      · rw [if_neg hused]
        by_cases hcom : isInsideComment
            (docLines.getD (positionAt docLines off).1 "")
            (positionAt docLines off).2
        · simp only [hcom, if_true]
          exact ih lenses lensLines hmem hnd
        · rw [Bool.not_eq_true] at hcom
          simp only [hcom, Bool.false_eq_true, if_false]
          have hnotline : (positionAt docLines off).1 ∉
              lenses.map (fun l => l.line) := by
            intro hin
            obtain ⟨l, hl, hline⟩ := List.mem_map.mp hin
            exact hused (hline ▸ hmem l hl)
          have hmem' : ∀ l ∈ lenses ++
              [{ line := (positionAt docLines off).1
                 title := (mapping.specialistEmoji.getD "💡") ++ " " ++
                   mapping.label
                 specialist := mapping.specialist }],
              l.line ∈ (positionAt docLines off).1 :: lensLines := by
            intro l hl
            rcases List.mem_append.mp hl with h1 | h2
            · exact List.mem_cons_of_mem _ (hmem l h1)
            · rw [List.mem_singleton.mp h2]
              exact List.mem_cons_self _ _
          have hnd' : ((lenses ++
              [({ line := (positionAt docLines off).1
                  title := (mapping.specialistEmoji.getD "💡") ++ " " ++
                    mapping.label
                  specialist := mapping.specialist } : CodeLens)]).map
              (fun l => l.line)).Nodup := by
            rw [List.map_append]
            rw [List.nodup_append]
            refine ⟨hnd, by simp, ?_⟩
            intro a ha hb
            simp only [List.map_cons, List.map_nil,
              List.mem_singleton] at hb
            rw [hb] at ha
            exact hnotline ha
          by_cases hcap : 0 < maxPerFile ∧ maxPerFile ≤ (lenses ++
              [({ line := (positionAt docLines off).1
                  title := (mapping.specialistEmoji.getD "💡") ++ " " ++
                    mapping.label
                  specialist := mapping.specialist } : CodeLens)]).length
          · rw [if_pos hcap]
            exact ⟨hmem', hnd',
              fun x hx => List.mem_cons_of_mem _ hx⟩
          · rw [if_neg hcap]
            obtain ⟨a, b, c⟩ := ih _ _ hmem' hnd'
            exact ⟨a, b, fun x hx =>
              c x (List.mem_cons_of_mem _ hx)⟩

/-- Cap invariant of the match loop: starting strictly below the cap, the
lens list never exceeds it, and strictly stays below it unless the early
return fired. -/
theorem processMatches_cap (docLines : List String)
    (mapping : CodeLensMapping) (maxPerFile : Nat)
    (hmax : 0 < maxPerFile) :
    ∀ (offs : List Nat) (lenses : List CodeLens) (lensLines : List Nat),
      lenses.length < maxPerFile →
      (processMatches docLines mapping maxPerFile offs lenses
        lensLines).1.length ≤ maxPerFile ∧
      ((processMatches docLines mapping maxPerFile offs lenses
          lensLines).2.2 = false →
        (processMatches docLines mapping maxPerFile offs lenses
          lensLines).1.length < maxPerFile) := by
  intro offs
  induction offs with
  | nil =>
      intro lenses lensLines hlt
      exact ⟨Nat.le_of_lt hlt, fun _ => hlt⟩
  | cons off rest ih =>
      intro lenses lensLines hlt
      rw [processMatches]
      by_cases hused : (positionAt docLines off).1 ∈ lensLines
      · rw [if_pos hused]
        exact ih lenses lensLines hlt
      · rw [if_neg hused]
        by_cases hcom : isInsideComment
            (docLines.getD (positionAt docLines off).1 "")
            (positionAt docLines off).2
        · simp only [hcom, if_true]
          exact ih lenses lensLines hlt
        · rw [Bool.not_eq_true] at hcom
          simp only [hcom, Bool.false_eq_true, if_false]
          by_cases hcap : 0 < maxPerFile ∧ maxPerFile ≤ (lenses ++
              [({ line := (positionAt docLines off).1
                  title := (mapping.specialistEmoji.getD "💡") ++ " " ++
                    mapping.label
                  specialist := mapping.specialist } : CodeLens)]).length
          · rw [if_pos hcap]
            refine ⟨?_, fun hfalse => absurd hfalse (by simp)⟩
            simp only [List.length_append, List.length_singleton]
            omega
          · rw [if_neg hcap]
            apply ih
            simp only [List.length_append, List.length_singleton] at hcap ⊢
            omega

/-- Soundness of the match loop: every emitted lens was either already
present or anchors the line of one of this mapping's match offsets whose
position is not inside a comment. -/
theorem processMatches_sound (docLines : List String)
    (mapping : CodeLensMapping) (maxPerFile : Nat) :
    ∀ (offs : List Nat) (lenses : List CodeLens) (lensLines : List Nat)
      (l : CodeLens),
      l ∈ (processMatches docLines mapping maxPerFile offs lenses
        lensLines).1 →
      l ∈ lenses ∨
      ∃ off ∈ offs, l.line = (positionAt docLines off).1 ∧
        isInsideComment (docLines.getD l.line "")
          (positionAt docLines off).2 = false ∧
        l.title = (mapping.specialistEmoji.getD "💡") ++ " " ++
          mapping.label ∧
        l.specialist = mapping.specialist := by
  intro offs
  induction offs with
  | nil =>
      intro lenses lensLines l hl
      exact Or.inl hl
  | cons off rest ih =>
      intro lenses lensLines l hl
      rw [processMatches] at hl
      by_cases hused : (positionAt docLines off).1 ∈ lensLines
      · rw [if_pos hused] at hl
        rcases ih lenses lensLines l hl with h1 | ⟨o, ho, h2⟩
        · exact Or.inl h1
        · exact Or.inr ⟨o, List.mem_cons_of_mem _ ho, h2⟩
      · rw [if_neg hused] at hl
        by_cases hcom : isInsideComment
            (docLines.getD (positionAt docLines off).1 "")
            (positionAt docLines off).2
        · simp only [hcom, if_true] at hl
          rcases ih lenses lensLines l hl with h1 | ⟨o, ho, h2⟩
          · exact Or.inl h1
          · exact Or.inr ⟨o, List.mem_cons_of_mem _ ho, h2⟩
        · rw [Bool.not_eq_true] at hcom
          simp only [hcom, Bool.false_eq_true, if_false] at hl
          have hnew : ∀ x ∈ lenses ++
              [{ line := (positionAt docLines off).1
                 title := (mapping.specialistEmoji.getD "💡") ++ " " ++
                   mapping.label
                 specialist := mapping.specialist }],
              x = l →
              l ∈ lenses ∨
              ∃ o ∈ off :: rest, l.line = (positionAt docLines o).1 ∧
                isInsideComment (docLines.getD l.line "")
                  (positionAt docLines o).2 = false ∧
                l.title = (mapping.specialistEmoji.getD "💡") ++ " " ++
                  mapping.label ∧
                l.specialist = mapping.specialist := by
            intro x hx hxl
            rcases List.mem_append.mp hx with h1 | h2
            · exact Or.inl (hxl ▸ h1)
            · right
              rw [List.mem_singleton.mp h2] at hxl
              refine ⟨off, List.mem_cons_self _ _, ?_⟩
              rw [← hxl]
              exact ⟨rfl, hcom, rfl, rfl⟩
          by_cases hcap : 0 < maxPerFile ∧ maxPerFile ≤ (lenses ++
              [({ line := (positionAt docLines off).1
                  title := (mapping.specialistEmoji.getD "💡") ++ " " ++
                    mapping.label
                  specialist := mapping.specialist } : CodeLens)]).length
          · rw [if_pos hcap] at hl
            exact hnew l hl rfl
          · rw [if_neg hcap] at hl
            rcases ih _ _ l hl with h1 | ⟨o, ho, h2⟩
            · exact hnew l h1 rfl
            · exact Or.inr ⟨o, List.mem_cons_of_mem _ ho, h2⟩

theorem provideLenses_nodup (docLines : List String) (maxPerFile : Nat) :
    ∀ (mappings : List CodeLensMapping) (lenses : List CodeLens)
      (lensLines : List Nat),
      (∀ l ∈ lenses, l.line ∈ lensLines) →
      (lenses.map (fun l => l.line)).Nodup →
      ((provideLenses docLines maxPerFile mappings lenses lensLines).map
        (fun l => l.line)).Nodup := by
  intro mappings
  induction mappings with
  | nil =>
      intro lenses lensLines _ hnd
      rw [provideLenses]
      exact hnd
  | cons mapping rest ih =>
      intro lenses lensLines hmem hnd
      rw [provideLenses]
      obtain ⟨a, b, _⟩ := processMatches_inv docLines mapping maxPerFile
        (mapping.pattern (String.intercalate "\n" docLines)) lenses
        lensLines hmem hnd
      by_cases hstop : (processMatches docLines mapping maxPerFile
          (mapping.pattern (String.intercalate "\n" docLines)) lenses
          lensLines).2.2 = true
      · simp only [hstop, if_true]
        exact b
      · rw [Bool.not_eq_true] at hstop
        simp only [hstop, Bool.false_eq_true, if_false]
        exact ih _ _ a b

theorem provideLenses_cap (docLines : List String) (maxPerFile : Nat)
    (hmax : 0 < maxPerFile) :
    ∀ (mappings : List CodeLensMapping) (lenses : List CodeLens)
      (lensLines : List Nat),
      lenses.length < maxPerFile →
      (provideLenses docLines maxPerFile mappings lenses
        lensLines).length ≤ maxPerFile := by
  intro mappings
  induction mappings with
  | nil =>
      intro lenses lensLines hlt
      rw [provideLenses]
      exact Nat.le_of_lt hlt
  | cons mapping rest ih =>
      intro lenses lensLines hlt
      rw [provideLenses]
      obtain ⟨hle, hns⟩ := processMatches_cap docLines mapping maxPerFile
        hmax (mapping.pattern (String.intercalate "\n" docLines)) lenses
        lensLines hlt
      by_cases hstop : (processMatches docLines mapping maxPerFile
          (mapping.pattern (String.intercalate "\n" docLines)) lenses
          lensLines).2.2 = true
      · simp only [hstop, if_true]
        exact hle
      · rw [Bool.not_eq_true] at hstop
        simp only [hstop, Bool.false_eq_true, if_false]
        exact ih _ _ (hns hstop)

theorem provideLenses_sound (docLines : List String) (maxPerFile : Nat) :
    ∀ (mappings : List CodeLensMapping) (lenses : List CodeLens)
      (lensLines : List Nat) (l : CodeLens),
      l ∈ provideLenses docLines maxPerFile mappings lenses lensLines →
      l ∈ lenses ∨
      ∃ mapping ∈ mappings,
        ∃ off ∈ mapping.pattern (String.intercalate "\n" docLines),
          l.line = (positionAt docLines off).1 ∧
          isInsideComment (docLines.getD l.line "")
            (positionAt docLines off).2 = false ∧
          l.title = (mapping.specialistEmoji.getD "💡") ++ " " ++
            mapping.label ∧
          l.specialist = mapping.specialist := by
  intro mappings
  induction mappings with
  | nil =>
      intro lenses lensLines l hl
      rw [provideLenses] at hl
      exact Or.inl hl
  | cons mapping rest ih =>
      intro lenses lensLines l hl
      rw [provideLenses] at hl
      by_cases hstop : (processMatches docLines mapping maxPerFile
          (mapping.pattern (String.intercalate "\n" docLines)) lenses
          lensLines).2.2 = true
      · simp only [hstop, if_true] at hl
        rcases processMatches_sound docLines mapping maxPerFile _ lenses
          lensLines l hl with h1 | ⟨off, ho, h2⟩
        · exact Or.inl h1
        · exact Or.inr ⟨mapping, List.mem_cons_self _ _, off, ho, h2⟩
      · rw [Bool.not_eq_true] at hstop
        simp only [hstop, Bool.false_eq_true, if_false] at hl
        rcases ih _ _ l hl with h1 | ⟨m, hm, off, ho, h2⟩
        · rcases processMatches_sound docLines mapping maxPerFile _ lenses
            lensLines l h1 with h3 | ⟨off, ho, h2⟩
          · exact Or.inl h3
          · exact Or.inr ⟨mapping, List.mem_cons_self _ _, off, ho, h2⟩
        · exact Or.inr ⟨m, List.mem_cons_of_mem _ hm, off, ho, h2⟩

/-- The comment filter, spelled out: a position is treated as commented
exactly when it lies after a `//`, or after a `/*` whose line has no
`*/` or whose first `*/` ends strictly before the position.  (A match
inside a block comment whose `*/` comes later on the line is *not*
skipped.) -/
theorem isInsideComment_iff (lineText : String) (ch : Nat) :
    isInsideComment lineText ch = true ↔
      ((∃ i, idxOf lineText "//" = some i ∧ i < ch) ∨
       (∃ i, idxOf lineText "/*" = some i ∧ i < ch ∧
         (idxOf lineText "*/" = none ∨
          ∃ j, idxOf lineText "*/" = some j ∧ j < ch))) := by
  cases hsl : idxOf lineText "//" <;>
    cases hbs : idxOf lineText "/*" <;>
      cases hbe : idxOf lineText "*/" <;>
        simp [isInsideComment, hsl, hbs, hbe] <;>
          omega

/-- Mapping fixture: the `\bError\s*\(` default mapping, compiled over
documents that write the call as a literal `Error(`. -/
def errorMapping : CodeLensMapping :=
  { pattern := fun text => subOccurrences "Error(" text
    specialist := "eva-errors"
    label := "Ask Eva about ErrorInfo"
    specialistEmoji := some "E" }

/-- Mapping fixture: the `\bMessage\s*\(` default mapping, compiled over
documents that write the call as a literal `Message(`. -/
def messageMapping : CodeLensMapping :=
  { pattern := fun text => subOccurrences "Message(" text
    specialist := "sam-coder"
    label := "Review messaging"
    specialistEmoji := some "S" }

/-! ### Claim C8 -/

/-- **C8, counterexample.**  The claim says the engine skips any match that
lies after the start of a block comment on its line.  In the document whose
single line is `/* Error( */`, the only match starts at character 3, after
the block-comment start at character 0 — yet a suggestion is emitted,
because `isInsideComment` treats a position after `/*` as commented only
when the line's first `*/` is missing or ends before the position. -/
theorem c8_counterexample :
    subOccurrences "Error("
      (String.intercalate "\n" ["/* Error( */"]) = [3] ∧
    positionAt ["/* Error( */"] 3 = (0, 3) ∧
    idxOf "/* Error( */" "/*" = some 0 ∧ (0 : Nat) < 3 ∧
    (provideCodeLenses [errorMapping] 20 ["/* Error( */"]).length = 1 :=
  ⟨rfl, rfl, rfl, by decide, rfl⟩

/-- **C8, amended.**  The engine emits at most one suggestion per line
(lens lines are pairwise distinct, the first mapping in load order
claiming a line wins), skips any match that lies after a line-comment
start on its line, and skips a match after a block-comment start only when
the line's first block-comment terminator is absent or ends strictly
before the match; it stops early once the per-document cap is reached.  A
document with two lines matching one pattern, a commented-out line, and a
fourth line matching another pattern yields exactly 3 suggestions, one per
distinct non-commented matching line. -/
theorem c8_amended_theorem :
    (∀ (mappings : List CodeLensMapping) (maxPerFile : Nat)
       (docLines : List String),
       ((provideCodeLenses mappings maxPerFile docLines).map
         (fun l => l.line)).Nodup) ∧
    (∀ (mappings : List CodeLensMapping) (maxPerFile : Nat)
       (docLines : List String), 0 < maxPerFile →
       (provideCodeLenses mappings maxPerFile docLines).length ≤
         maxPerFile) ∧
    (∀ (mappings : List CodeLensMapping) (maxPerFile : Nat)
       (docLines : List String) (l : CodeLens),
       l ∈ provideCodeLenses mappings maxPerFile docLines →
       ∃ mapping ∈ mappings,
         ∃ off ∈ mapping.pattern (String.intercalate "\n" docLines),
           l.line = (positionAt docLines off).1 ∧
           isInsideComment (docLines.getD l.line "")
             (positionAt docLines off).2 = false) ∧
    (∀ (lineText : String) (ch : Nat),
       isInsideComment lineText ch = true ↔
         ((∃ i, idxOf lineText "//" = some i ∧ i < ch) ∨
          (∃ i, idxOf lineText "/*" = some i ∧ i < ch ∧
            (idxOf lineText "*/" = none ∨
             ∃ j, idxOf lineText "*/" = some j ∧ j < ch)))) ∧
    ((provideCodeLenses [errorMapping, messageMapping] 20
       ["x Error(", "y Error(", "// Error(", "z Message("]).map
       (fun l => l.line) = [0, 1, 3]) ∧
    (provideCodeLenses [errorMapping, messageMapping] 20
       ["Error( Message("] =
      [{ line := 0, title := "E Ask Eva about ErrorInfo",
         specialist := "eva-errors" }]) := by
  refine ⟨?_, ?_, ?_, isInsideComment_iff, rfl, rfl⟩
  · intro mappings maxPerFile docLines
    exact provideLenses_nodup docLines maxPerFile mappings [] []
      (by simp) (by simp)
  · intro mappings maxPerFile docLines hmax
    exact provideLenses_cap docLines maxPerFile hmax mappings [] []
      (by simpa using hmax)
  · intro mappings maxPerFile docLines l hl
    rcases provideLenses_sound docLines maxPerFile mappings [] [] l hl
      with h1 | ⟨m, hm, off, ho, h2⟩
    · simp at h1
    · exact ⟨m, hm, off, ho, h2.1, h2.2.1⟩

/-- **C8, witness** for the amended theorem: the cap bound holds on the
counterexample document with the default cap of 20. -/
theorem c8_witness :
    (provideCodeLenses [errorMapping] 20 ["/* Error( */"]).length ≤ 20 :=
  c8_amended_theorem.2.1 [errorMapping] 20 ["/* Error( */"] (by decide)

end BCIntel
